import Mathlib

/-!
Shallow embedding of the referral-dashboard analytics core.

Source of truth: `src/unnamed/part_009` (analytics index, ingestion API, query
engine, snapshot codec) and `src/src/pages/ReferralDetailPage.tsx`
(`buildDescendantStats`).

Modelling conventions, chosen once and used throughout:
* JavaScript `Map<string, T>` (insertion ordered, unique keys) is embedded as an
  association list `SMap T := List (String × T)`; `mset` updates the value in
  place when the key exists (keeping its position) and appends otherwise, which
  is exactly `Map.set` semantics.
* JavaScript numbers carrying money (`feeUsd`, `volumeUsd`, rates, medians) are
  embedded as `ℚ`; timestamps (`createdAt`, `signupAt`, epoch ms) as `ℤ`;
  counters as `ℕ`.  Divisions in the query engine are exact in `ℚ`, and every
  zero-denominator guard of the source is translated literally, so the embedded
  functions are total (the Lean counterpart of "never NaN / never throws").
* The source mutates a shared `UserAgg` object that is referenced from the
  owning referral's `users` map, from `global.users` and from `usersByWallet`
  (all three are set to the same object by `addCustomer`).  The embedding
  mirrors an in-place mutation of that object by writing the updated record at
  the wallet key of each of the three tables with `updatePresent`, which never
  inserts a key — exactly the footprint of mutating the shared object in every
  state reachable by the ingestion API.
* Date handling (`date-fns`'s `format(_, 'yyyy-MM-dd')`, `new Date(s).getTime()`
  and `eachDayOfInterval`) is embedded with the standard civil-calendar
  conversion, at UTC; an unparseable date string maps to `none` (the JS `NaN`
  date), and every comparison against such a value is translated with the JS
  `NaN`-comparison semantics (always false).
-/

namespace ReferralDashboard

/- `Rat.add`/`mul`/`inv`/`sub` are `@[irreducible]`, which blocks `decide` on
concrete rational arithmetic; restore the default reducibility locally. -/
attribute [local semireducible] Rat.add Rat.mul Rat.inv Rat.sub

/-! ## String helpers (kernel-computable counterparts of the JS methods) -/

/-- JS `String.prototype.trim`. -/
def strTrim (s : String) : String :=
  ⟨((s.data.dropWhile Char.isWhitespace).reverse.dropWhile Char.isWhitespace).reverse⟩

/-- JS `String.prototype.toUpperCase` (ASCII range, as used by the source's
category labels). -/
def strToUpper (s : String) : String := ⟨s.data.map Char.toUpper⟩

/-- JS `String.prototype.startsWith`. -/
def strStartsWith (s p : String) : Bool := p.data.isPrefixOf s.data

/-- JS `String.prototype.split` with a one-code-unit separator. -/
def splitOnSep (sep : Char) : List Char → List (List Char)
  | [] => [[]]
  | c :: rest =>
    let r := splitOnSep sep rest
    if c = sep then [] :: r else (c :: r.headD []) :: r.tail

/-- A JS stable sort (`Array.prototype.sort` is stable by spec) with the
total preorder induced by a numeric comparator; embedded as insertion sort,
which computes the same list as any stable sort of the same preorder. -/
def sortBy {α : Type} (le : α → α → Bool) (l : List α) : List α :=
  @List.insertionSort α (fun a b => le a b = true) (fun a b => instDecidableEqBool (le a b) true) l

/-! ## String comparison (JS code-unit lexicographic order) -/

def charListLt : List Char → List Char → Bool
  | [], [] => false
  | [], _ :: _ => true
  | _ :: _, [] => false
  | a :: as, b :: bs =>
    if a.toNat < b.toNat then true
    else if b.toNat < a.toNat then false
    else charListLt as bs

def strLt (a b : String) : Bool := charListLt a.data b.data

def strLe (a b : String) : Bool := !strLt b a

/-! ## Dates: epoch milliseconds ↔ "YYYY-MM-DD" day keys (UTC) -/

def DAY_MS : Int := 86400000

/-- Civil date from days since 1970-01-01 (Hinnant's `civil_from_days`). -/
def civilFromDays (z0 : Int) : Int × Nat × Nat :=
  let z := z0 + 719468
  let era : Int := Int.fdiv z 146097
  let doe : Nat := (z - era * 146097).toNat
  let yoe : Nat := (doe - doe / 1460 + doe / 36524 - doe / 146096) / 365
  let y : Int := (yoe : Int) + era * 400
  let doy : Nat := doe - (365 * yoe + yoe / 4 - yoe / 100)
  let mp : Nat := (5 * doy + 2) / 153
  let d : Nat := doy - (153 * mp + 2) / 5 + 1
  let m : Nat := if mp < 10 then mp + 3 else mp - 9
  (if m ≤ 2 then y + 1 else y, m, d)

/-- Days since 1970-01-01 from a civil date (Hinnant's `days_from_civil`). -/
def daysFromCivil (y0 : Int) (m d : Nat) : Int :=
  let y : Int := if m ≤ 2 then y0 - 1 else y0
  let era : Int := Int.fdiv y 400
  let yoe : Nat := (y - era * 400).toNat
  let mp : Nat := if m > 2 then m - 3 else m + 9
  let doy : Nat := (153 * mp + 2) / 5 + d - 1
  let doe : Nat := yoe * 365 + yoe / 4 - yoe / 100 + doy
  era * 146097 + (doe : Int) - 719468

def pad2 (n : Nat) : String := if n < 10 then "0" ++ toString n else toString n

def pad4 (n : Nat) : String :=
  if n < 10 then "000" ++ toString n
  else if n < 100 then "00" ++ toString n
  else if n < 1000 then "0" ++ toString n
  else toString n

def dateKeyOfDays (z : Int) : String :=
  let c := civilFromDays z
  (if c.1 < 0 then "-" ++ pad4 (-c.1).toNat else pad4 c.1.toNat)
    ++ "-" ++ pad2 c.2.1 ++ "-" ++ pad2 c.2.2

/-- `toDateKey` of the source: `format(new Date(timestamp), 'yyyy-MM-dd')`.
In the `ℤ` embedding every timestamp is finite, so the source's
`Number.isFinite` guard (returning `"Invalid"`) has no counterpart. -/
def toDateKey (timestamp : Int) : String := dateKeyOfDays (Int.fdiv timestamp DAY_MS)

def isLeapYear (y : Int) : Bool := (y % 4 == 0 && y % 100 != 0) || y % 400 == 0

def daysInMonth (y : Int) (m : Nat) : Nat :=
  if m = 2 then (if isLeapYear y then 29 else 28)
  else if m = 4 ∨ m = 6 ∨ m = 9 ∨ m = 11 then 30
  else 31

def digitVal? (c : Char) : Option Nat :=
  if c.isDigit then some (c.toNat - 48) else none

/-- Strict `YYYY-MM-DD` parsing, as `new Date(s)` treats ISO day strings
(UTC midnight); anything else is the invalid date (`none`, the JS `NaN`). -/
def parseDateKeyDays? (s : String) : Option Int :=
  match s.data with
  | [y1, y2, y3, y4, h1, m1, m2, h2, d1, d2] =>
    match digitVal? y1, digitVal? y2, digitVal? y3, digitVal? y4,
        digitVal? m1, digitVal? m2, digitVal? d1, digitVal? d2 with
    | some a, some b, some c, some d, some e, some f, some g, some h =>
      if h1 = '-' ∧ h2 = '-' then
        let y : Int := (a * 1000 + b * 100 + c * 10 + d : Nat)
        let m := e * 10 + f
        let dd := g * 10 + h
        if 1 ≤ m ∧ m ≤ 12 ∧ 1 ≤ dd ∧ dd ≤ daysInMonth y m then
          some (daysFromCivil y m dd)
        else none
      else none
    | _, _, _, _, _, _, _, _ => none
  | _ => none

def msOfDateKey? (s : String) : Option Int := (parseDateKeyDays? s).map (· * DAY_MS)

/-! ## JS truthiness helpers -/

/-- `!x` for an optional JS number: `undefined` and `0` are falsy. -/
def optNumFalsy : Option Int → Bool
  | none => true
  | some v => v == 0

/-- `Boolean(x)` for an optional JS string: `undefined` and `""` are falsy. -/
def optStrTruthy : Option String → Bool
  | none => false
  | some s => s != ""

/-! ## Association-list maps (JS `Map<string, _>`) -/

abbrev SMap (α : Type) := List (String × α)

def mget {α : Type} (m : SMap α) (k : String) : Option α :=
  (m.find? (fun p => p.1 == k)).map (·.2)

def mhas {α : Type} (m : SMap α) (k : String) : Bool := m.any (fun p => p.1 == k)

/-- `Map.set`: overwrite in place when the key exists, append otherwise. -/
def mset {α : Type} : SMap α → String → α → SMap α
  | [], k, v => [(k, v)]
  | p :: rest, k, v => if p.1 == k then (k, v) :: rest else p :: mset rest k v

/-- Write `v` at `k` only when the key is already present (the footprint of
mutating, in place, the object stored at `k`); never inserts. -/
def updatePresent {α : Type} : SMap α → String → α → SMap α
  | [], _, _ => []
  | p :: rest, k, v => if p.1 == k then (k, v) :: rest else p :: updatePresent rest k v

def mkeys {α : Type} (m : SMap α) : List String := m.map Prod.fst

/-! ## Key-distinctness predicates (hold for every map built through `mset`) -/

/-- Keys are pairwise distinct. -/
def NK {α : Type} (m : SMap α) : Prop := (m.map Prod.fst).Nodup

def NK2 {α : Type} (m : SMap (SMap α)) : Prop := NK m ∧ ∀ p ∈ m, NK p.2

def NK3 {α : Type} (m : SMap (SMap (SMap α))) : Prop := NK m ∧ ∀ p ∈ m, NK2 p.2



/-! ## Record model (`src/unnamed/part_009`) -/

structure FileMeta where
  name : String
  size : Nat
  lastModified : Int
deriving DecidableEq, Repr

structure DateRange where
  start : String
  /-- `end` in the source; `end` is a reserved word in Lean. -/
  stop : String
deriving DecidableEq, Repr

structure Customer where
  id : String
  email : String
  eoa : String
  smartWallet : String
  signupAt : Int
  signupDate : String
  provider : String
  notusId : Option String
  referral : String
deriving DecidableEq, Repr

structure RevenueTxLite where
  hash : Option String
  createdAt : Int
  wallet : String
  feeUsd : ℚ
  volumeUsd : ℚ
  referral : String
deriving DecidableEq, Repr

structure DailyAgg where
  date : String
  feeUsd : ℚ
  volumeUsd : ℚ
  revenueTxCount : Nat
deriving DecidableEq, Repr

structure FeeCategoryAgg where
  feeUsd : ℚ
  revenueTxCount : Nat
deriving DecidableEq, Repr

structure VolumeCategoryAgg where
  volumeUsd : ℚ
  revenueTxCount : Nat
deriving DecidableEq, Repr

structure TokenVolumeAgg where
  volumeUsd : ℚ
  txCount : Nat
deriving DecidableEq, Repr

structure TokenCategoryAgg where
  volumeUsd : ℚ
  txCount : Nat
deriving DecidableEq, Repr

structure SwapFlowAgg where
  volumeUsd : ℚ
  txCount : Nat
deriving DecidableEq, Repr

structure UserAgg where
  wallet : String
  referral : String
  customerId : String
  signupAt : Option Int
  signupDate : Option String
  kyc : Bool
  txCount : Nat
  revenueTxCount : Nat
  feeUsd : ℚ
  volumeUsd : ℚ
  firstRevenueTxAt : Option Int
  lastRevenueTxAt : Option Int
  retainedWithin30d : Bool
  timeToFirstTxMs : Option Int
deriving DecidableEq, Repr

structure ReferralIndex where
  code : String
  signupsByDate : SMap Nat
  kycByDate : SMap Nat
  firstRevenueTxByDate : SMap Nat
  daily : SMap DailyAgg
  feeByCategory : SMap FeeCategoryAgg
  feeByCategoryDaily : SMap (SMap FeeCategoryAgg)
  volumeByCategory : SMap VolumeCategoryAgg
  volumeByCategoryDaily : SMap (SMap VolumeCategoryAgg)
  tokenVolumeBySymbol : SMap TokenVolumeAgg
  tokenVolumeBySymbolDaily : SMap (SMap TokenVolumeAgg)
  tokenCategoryBySymbolDaily : SMap (SMap (SMap TokenCategoryAgg))
  swapFlowByPair : SMap SwapFlowAgg
  swapFlowByPairDaily : SMap (SMap SwapFlowAgg)
  users : SMap UserAgg
  topRevenueTxs : List RevenueTxLite
  feeUsdTotal : ℚ
  volumeUsdTotal : ℚ
  revenueTxCount : Nat
deriving DecidableEq, Repr

structure ReferralCodeMeta where
  code : String
  note : String
  uses : Nat
  maxUses : Option Nat
  isActive : Bool
  validFrom : Option Int
  validUntil : Option Int
  isExhausted : Bool
  createdAt : Option Int
  createdBy : Option String
deriving DecidableEq, Repr

structure AnalyticsOptions where
  keepFullTx : Bool
  maxStoredTxs : Nat
deriving DecidableEq, Repr

structure AnalyticsTotals where
  customers : Nat
  kycUsers : Nat
  txLines : Nat
  revenueTxCount : Nat
  unattributedTxCount : Nat
deriving DecidableEq, Repr

structure AnalyticsMetadata where
  customersFile : Option FileMeta
  txFile : Option FileMeta
  txFiles : Option (List FileMeta)
  referralCodesFile : Option FileMeta
  generatedAt : Int
deriving DecidableEq, Repr

structure AnalyticsIndex where
  customersByWallet : SMap Customer
  customersById : SMap Customer
  usersByWallet : SMap UserAgg
  referrals : SMap ReferralIndex
  referralCodes : SMap ReferralCodeMeta
  ownerUsageDaily : SMap (SMap DailyAgg)
  customerUsageDaily : SMap (SMap DailyAgg)
  global : ReferralIndex
  totals : AnalyticsTotals
  options : AnalyticsOptions
  metadata : Option AnalyticsMetadata
deriving DecidableEq, Repr

/-! ## Index construction and ingestion -/

def createReferralIndex (code : String) : ReferralIndex :=
  { code := code
    signupsByDate := []
    kycByDate := []
    firstRevenueTxByDate := []
    daily := []
    feeByCategory := []
    feeByCategoryDaily := []
    volumeByCategory := []
    volumeByCategoryDaily := []
    tokenVolumeBySymbol := []
    tokenVolumeBySymbolDaily := []
    tokenCategoryBySymbolDaily := []
    swapFlowByPair := []
    swapFlowByPairDaily := []
    users := []
    topRevenueTxs := []
    feeUsdTotal := 0
    volumeUsdTotal := 0
    revenueTxCount := 0 }

def createAnalyticsIndex (options : AnalyticsOptions) : AnalyticsIndex :=
  { customersByWallet := []
    customersById := []
    usersByWallet := []
    referrals := []
    referralCodes := []
    ownerUsageDaily := []
    customerUsageDaily := []
    global := createReferralIndex "all"
    totals := { customers := 0, kycUsers := 0, txLines := 0, revenueTxCount := 0,
                unattributedTxCount := 0 }
    options := options
    metadata := none }

/-- `code.trim() || 'Unassigned'` -/
def trimCode (code : String) : String :=
  let t := strTrim code
  if t = "" then "Unassigned" else t

/-- `getReferral` of the source; returns the (possibly freshly inserted)
aggregate together with the updated index, making the mutation explicit. -/
def getReferral (index : AnalyticsIndex) (code : String) : ReferralIndex × AnalyticsIndex :=
  let trimmed := trimCode code
  match mget index.referrals trimmed with
  | some existing => (existing, index)
  | none =>
    let created := createReferralIndex trimmed
    (created, { index with referrals := mset index.referrals trimmed created })

def incrementMap (m : SMap Nat) (key : String) : SMap Nat :=
  mset m key ((mget m key).getD 0 + 1)

/-- `ensureDaily` + in-place bucket mutation (fee, volume, one tx). -/
def bumpDaily (m : SMap DailyAgg) (date : String) (feeUsd volumeUsd : ℚ) : SMap DailyAgg :=
  let cur := (mget m date).getD { date := date, feeUsd := 0, volumeUsd := 0, revenueTxCount := 0 }
  mset m date
    { cur with
      feeUsd := cur.feeUsd + feeUsd
      volumeUsd := cur.volumeUsd + volumeUsd
      revenueTxCount := cur.revenueTxCount + 1 }

def bumpFeeCategory (m : SMap FeeCategoryAgg) (category : String) (feeUsd : ℚ) :
    SMap FeeCategoryAgg :=
  let cur := (mget m category).getD { feeUsd := 0, revenueTxCount := 0 }
  mset m category { feeUsd := cur.feeUsd + feeUsd, revenueTxCount := cur.revenueTxCount + 1 }

def bumpFeeCategoryDaily (m : SMap (SMap FeeCategoryAgg)) (category date : String) (feeUsd : ℚ) :
    SMap (SMap FeeCategoryAgg) :=
  let inner := (mget m category).getD []
  let cur := (mget inner date).getD { feeUsd := 0, revenueTxCount := 0 }
  mset m category (mset inner date
    { feeUsd := cur.feeUsd + feeUsd, revenueTxCount := cur.revenueTxCount + 1 })

def bumpVolumeCategory (m : SMap VolumeCategoryAgg) (category : String) (volumeUsd : ℚ) :
    SMap VolumeCategoryAgg :=
  let cur := (mget m category).getD { volumeUsd := 0, revenueTxCount := 0 }
  mset m category { volumeUsd := cur.volumeUsd + volumeUsd,
                    revenueTxCount := cur.revenueTxCount + 1 }

def bumpVolumeCategoryDaily (m : SMap (SMap VolumeCategoryAgg)) (category date : String)
    (volumeUsd : ℚ) : SMap (SMap VolumeCategoryAgg) :=
  let inner := (mget m category).getD []
  let cur := (mget inner date).getD { volumeUsd := 0, revenueTxCount := 0 }
  mset m category (mset inner date
    { volumeUsd := cur.volumeUsd + volumeUsd, revenueTxCount := cur.revenueTxCount + 1 })

def bumpTokenVolume (m : SMap TokenVolumeAgg) (symbol : String) (volumeUsd : ℚ) :
    SMap TokenVolumeAgg :=
  let cur := (mget m symbol).getD { volumeUsd := 0, txCount := 0 }
  mset m symbol { volumeUsd := cur.volumeUsd + volumeUsd, txCount := cur.txCount + 1 }

def bumpTokenVolumeDaily (m : SMap (SMap TokenVolumeAgg)) (symbol date : String) (volumeUsd : ℚ) :
    SMap (SMap TokenVolumeAgg) :=
  let inner := (mget m symbol).getD []
  let cur := (mget inner date).getD { volumeUsd := 0, txCount := 0 }
  mset m symbol (mset inner date
    { volumeUsd := cur.volumeUsd + volumeUsd, txCount := cur.txCount + 1 })

def bumpTokenCategoryDaily (m : SMap (SMap (SMap TokenCategoryAgg)))
    (symbol date category : String) (volumeUsd : ℚ) : SMap (SMap (SMap TokenCategoryAgg)) :=
  let tokenMap := (mget m symbol).getD []
  let dateMap := (mget tokenMap date).getD []
  let cur := (mget dateMap category).getD { volumeUsd := 0, txCount := 0 }
  mset m symbol (mset tokenMap date (mset dateMap category
    { volumeUsd := cur.volumeUsd + volumeUsd, txCount := cur.txCount + 1 }))

def bumpSwapFlow (m : SMap SwapFlowAgg) (pair : String) (volumeUsd : ℚ) : SMap SwapFlowAgg :=
  let cur := (mget m pair).getD { volumeUsd := 0, txCount := 0 }
  mset m pair { volumeUsd := cur.volumeUsd + volumeUsd, txCount := cur.txCount + 1 }

def bumpSwapFlowDaily (m : SMap (SMap SwapFlowAgg)) (pair date : String) (volumeUsd : ℚ) :
    SMap (SMap SwapFlowAgg) :=
  let inner := (mget m pair).getD []
  let cur := (mget inner date).getD { volumeUsd := 0, txCount := 0 }
  mset m pair (mset inner date
    { volumeUsd := cur.volumeUsd + volumeUsd, txCount := cur.txCount + 1 })

/-- `ensureCustomerDaily` + in-place bucket mutation. -/
def bumpCustomerDaily (m : SMap (SMap DailyAgg)) (customerId date : String)
    (feeUsd volumeUsd : ℚ) : SMap (SMap DailyAgg) :=
  let inner := (mget m customerId).getD []
  mset m customerId (bumpDaily inner date feeUsd volumeUsd)

/-- Descending by `createdAt` (`(a, b) => b.createdAt - a.createdAt`). -/
def txLe (a b : RevenueTxLite) : Bool := decide (b.createdAt ≤ a.createdAt)

/-- `maybeStoreTx`, acting on the stored sample list of one referral. -/
def maybeStoreTx (options : AnalyticsOptions) (stored : List RevenueTxLite)
    (tx : RevenueTxLite) : List RevenueTxLite :=
  let pushed := stored ++ [tx]
  if options.keepFullTx then pushed
  else if pushed.length > options.maxStoredTxs then
    (sortBy txLe pushed).take options.maxStoredTxs
  else pushed

/-- The zero-valued `UserAgg` that `addCustomer` creates for a customer. -/
def initialUserAgg (customer : Customer) : UserAgg :=
  { wallet := customer.smartWallet
    referral := customer.referral
    customerId := customer.id
    signupAt := some customer.signupAt
    signupDate := some customer.signupDate
    kyc := optStrTruthy customer.notusId
    txCount := 0
    revenueTxCount := 0
    feeUsd := 0
    volumeUsd := 0
    firstRevenueTxAt := none
    lastRevenueTxAt := none
    retainedWithin30d := false
    timeToFirstTxMs := none }

def addCustomer (index : AnalyticsIndex) (customer : Customer) : AnalyticsIndex :=
  let (referral, index1) := getReferral index customer.referral
  let kyc := optStrTruthy customer.notusId
  let userAgg : UserAgg := initialUserAgg customer
  let valid := customer.signupDate != "Invalid"
  let referral1 :=
    { referral with
      users := mset referral.users customer.smartWallet userAgg
      signupsByDate :=
        if valid then incrementMap referral.signupsByDate customer.signupDate
        else referral.signupsByDate
      kycByDate :=
        if valid && kyc then incrementMap referral.kycByDate customer.signupDate
        else referral.kycByDate }
  let global1 :=
    { index1.global with
      users := mset index1.global.users customer.smartWallet userAgg
      signupsByDate :=
        if valid then incrementMap index1.global.signupsByDate customer.signupDate
        else index1.global.signupsByDate
      kycByDate :=
        if valid && kyc then incrementMap index1.global.kycByDate customer.signupDate
        else index1.global.kycByDate }
  { index1 with
    customersByWallet := mset index1.customersByWallet customer.smartWallet customer
    customersById := mset index1.customersById customer.id customer
    referrals := mset index1.referrals (trimCode customer.referral) referral1
    global := global1
    usersByWallet := mset index1.usersByWallet customer.smartWallet userAgg
    totals :=
      { index1.totals with
        customers := index1.totals.customers + 1
        kycUsers := if kyc then index1.totals.kycUsers + 1 else index1.totals.kycUsers } }

def addReferralCodeMeta (index : AnalyticsIndex) (meta : ReferralCodeMeta) : AnalyticsIndex :=
  let code := strTrim meta.code
  if code = "" then index
  else { index with referralCodes := mset index.referralCodes code { meta with code := code } }

def addOwnerUsageDaily (index : AnalyticsIndex) (ownerId dateKey : String)
    (feeUsd volumeUsd : ℚ) : AnalyticsIndex :=
  if ownerId = "" then index
  else
    let dailyMap := (mget index.ownerUsageDaily ownerId).getD []
    { index with
      ownerUsageDaily := mset index.ownerUsageDaily ownerId
        (bumpDaily dailyMap dateKey feeUsd volumeUsd) }

structure TokenAmount where
  symbol : String
  volumeUsd : ℚ
deriving DecidableEq, Repr

structure SwapFlowSpec where
  fromSymbol : String
  toSymbol : String
  volumeUsd : ℚ
deriving DecidableEq, Repr

structure ParsedRevenueTx where
  wallet : String
  createdAt : Int
  feeUsd : ℚ
  volumeUsd : ℚ
  category : String
  tokens : Option (List TokenAmount)
  swapFlow : Option SwapFlowSpec
  hash : Option String
deriving DecidableEq, Repr

/-- The `userAgg` mutation block of `addRevenueTransaction`; the `Bool` result
records whether the first-revenue branch fired (it drives the
`firstRevenueTxByDate` increments). -/
def applyTxUser (u : UserAgg) (tx : ParsedRevenueTx) : UserAgg × Bool :=
  let u1 :=
    { u with
      txCount := u.txCount + 1
      revenueTxCount := u.revenueTxCount + 1
      feeUsd := u.feeUsd + tx.feeUsd
      volumeUsd := u.volumeUsd + tx.volumeUsd
      lastRevenueTxAt := some tx.createdAt }
  if optNumFalsy u.firstRevenueTxAt then
    ({ u1 with
        firstRevenueTxAt := some tx.createdAt
        timeToFirstTxMs :=
          if optNumFalsy u.signupAt then none
          else u.signupAt.map (fun s => tx.createdAt - s) }, true)
  else if !u1.retainedWithin30d then
    let diff := tx.createdAt - (u.firstRevenueTxAt.getD 0)
    if diff ≤ 30 * DAY_MS then ({ u1 with retainedWithin30d := true }, false) else (u1, false)
  else (u1, false)

/-- The `tx.tokens.forEach` body of `addRevenueTransaction` (tokens with an
empty symbol or zero volume are skipped — JS falsiness of `token.volumeUsd`). -/
def applyTxToken (dateKey category : String) (a : ReferralIndex) (token : TokenAmount) :
    ReferralIndex :=
  if token.symbol = "" ∨ token.volumeUsd = 0 then a
  else
    { a with
      tokenVolumeBySymbol := bumpTokenVolume a.tokenVolumeBySymbol token.symbol token.volumeUsd
      tokenVolumeBySymbolDaily :=
        bumpTokenVolumeDaily a.tokenVolumeBySymbolDaily token.symbol dateKey token.volumeUsd
      tokenCategoryBySymbolDaily :=
        bumpTokenCategoryDaily a.tokenCategoryBySymbolDaily token.symbol dateKey category
          token.volumeUsd }

/-- The swap-pair update of `addRevenueTransaction` (guarded by truthiness of
both symbols and positivity of the volume). -/
def applyTxSwap (dateKey : String) (swapFlow : Option SwapFlowSpec) (a : ReferralIndex) :
    ReferralIndex :=
  match swapFlow with
  | none => a
  | some sf =>
    if sf.fromSymbol ≠ "" ∧ sf.toSymbol ≠ "" ∧ sf.volumeUsd > 0 then
      let pairKey := sf.fromSymbol ++ "→" ++ sf.toSymbol
      { a with
        swapFlowByPair := bumpSwapFlow a.swapFlowByPair pairKey sf.volumeUsd
        swapFlowByPairDaily := bumpSwapFlowDaily a.swapFlowByPairDaily pairKey dateKey sf.volumeUsd }
    else a

/-- The per-aggregate bucket updates of `addRevenueTransaction`, identical for
the owning referral aggregate and for the global aggregate. -/
def applyTxAgg (agg : ReferralIndex) (tx : ParsedRevenueTx) (dateKey category : String)
    (isFirst : Bool) (wallet : String) (u : UserAgg) : ReferralIndex :=
  let agg1 :=
    { agg with
      users := updatePresent agg.users wallet u
      firstRevenueTxByDate :=
        if isFirst then incrementMap agg.firstRevenueTxByDate dateKey
        else agg.firstRevenueTxByDate
      daily := bumpDaily agg.daily dateKey tx.feeUsd tx.volumeUsd
      feeByCategory := bumpFeeCategory agg.feeByCategory category tx.feeUsd
      feeByCategoryDaily := bumpFeeCategoryDaily agg.feeByCategoryDaily category dateKey tx.feeUsd
      volumeByCategory := bumpVolumeCategory agg.volumeByCategory category tx.volumeUsd
      volumeByCategoryDaily :=
        bumpVolumeCategoryDaily agg.volumeByCategoryDaily category dateKey tx.volumeUsd
      feeUsdTotal := agg.feeUsdTotal + tx.feeUsd
      volumeUsdTotal := agg.volumeUsdTotal + tx.volumeUsd
      revenueTxCount := agg.revenueTxCount + 1 }
  let agg2 := (tx.tokens.getD []).foldl (applyTxToken dateKey category) agg1
  applyTxSwap dateKey tx.swapFlow agg2

/-- The `RevenueTxLite` record appended to the owning referral's sample. -/
def txLiteOf (customer : Customer) (tx : ParsedRevenueTx) : RevenueTxLite :=
  { hash := tx.hash, createdAt := tx.createdAt, wallet := tx.wallet,
    feeUsd := tx.feeUsd, volumeUsd := tx.volumeUsd, referral := customer.referral }

def addRevenueTransaction (index : AnalyticsIndex) (tx : ParsedRevenueTx) : AnalyticsIndex :=
  let totals1 := { index.totals with revenueTxCount := index.totals.revenueTxCount + 1 }
  match mget index.customersByWallet tx.wallet with
  | none =>
    { index with
      totals := { totals1 with unattributedTxCount := totals1.unattributedTxCount + 1 } }
  | some customer =>
    let index0 := { index with totals := totals1 }
    let (referral, index1) := getReferral index0 customer.referral
    let dateKey := toDateKey tx.createdAt
    let category := if tx.category = "" then "Unknown" else tx.category
    match (mget referral.users tx.wallet).orElse (fun _ => mget index0.usersByWallet tx.wallet) with
    | none => index1
    | some userAgg =>
      let p := applyTxUser userAgg tx
      let u := p.1
      let isFirst := p.2
      let referral1 := applyTxAgg referral tx dateKey category isFirst tx.wallet u
      let referral2 :=
        { referral1 with
          topRevenueTxs := maybeStoreTx index0.options referral1.topRevenueTxs
            (txLiteOf customer tx) }
      let global1 := applyTxAgg index1.global tx dateKey category isFirst tx.wallet u
      { index1 with
        referrals := mset index1.referrals (trimCode customer.referral) referral2
        global := global1
        usersByWallet := updatePresent index1.usersByWallet tx.wallet u
        customerUsageDaily :=
          bumpCustomerDaily index1.customerUsageDaily customer.id dateKey tx.feeUsd tx.volumeUsd }

/-- One ingestion call of the Ingestion API. -/
inductive IngestOp where
  | customer (c : Customer)
  | codeMeta (meta : ReferralCodeMeta)
  | revenueTx (tx : ParsedRevenueTx)
  | ownerUsage (ownerId dateKey : String) (feeUsd volumeUsd : ℚ)
deriving Repr

def applyOp (index : AnalyticsIndex) : IngestOp → AnalyticsIndex
  | .customer c => addCustomer index c
  | .codeMeta m => addReferralCodeMeta index m
  | .revenueTx tx => addRevenueTransaction index tx
  | .ownerUsage ownerId dateKey feeUsd volumeUsd =>
    addOwnerUsageDaily index ownerId dateKey feeUsd volumeUsd

/-- An index built by an arbitrary sequence of ingestion calls on a fresh index. -/
def buildIndex (options : AnalyticsOptions) (ops : List IngestOp) : AnalyticsIndex :=
  ops.foldl applyOp (createAnalyticsIndex options)

/-! ## Query Engine -/

structure DailyTotals where
  feeUsd : ℚ
  volumeUsd : ℚ
  revenueTxCount : Nat
deriving DecidableEq, Repr

structure ReferralMetrics where
  code : String
  signups : Nat
  kycUsers : Nat
  usersWithRevenueTx : Nat
  firstRevenueTxUsers : Nat
  feeUsd : ℚ
  volumeUsd : ℚ
  conversionRate : ℚ
  feePerUser : ℚ
  retention30d : ℚ
  timeToFirstTxMedianDays : ℚ
  kycRate : ℚ
deriving DecidableEq, Repr

def getRangeBounds (index : AnalyticsIndex) : Option DateRange :=
  let dates := mkeys index.global.daily ++ mkeys index.global.signupsByDate
  let deduped := dates.foldl (fun acc d => if acc.contains d then acc else acc ++ [d]) []
  let sorted := sortBy strLe deduped
  match sorted with
  | [] => none
  | first :: _ => some { start := first, stop := sorted.getLastD first }

/-- Inclusive ISO-day-string range check (`date >= range.start && date <= range.end`). -/
def isDateInRange (date : String) (range : DateRange) : Bool :=
  strLe range.start date && strLe date range.stop

def sumMapByRange (m : SMap Nat) (range : DateRange) : Nat :=
  m.foldl (fun total p => if isDateInRange p.1 range then total + p.2 else total) 0

def sumDailyByRange (m : SMap DailyAgg) (range : DateRange) : DailyTotals :=
  m.foldl (fun acc p =>
    if isDateInRange p.1 range then
      { feeUsd := acc.feeUsd + p.2.feeUsd
        volumeUsd := acc.volumeUsd + p.2.volumeUsd
        revenueTxCount := acc.revenueTxCount + p.2.revenueTxCount }
    else acc)
    { feeUsd := 0, volumeUsd := 0, revenueTxCount := 0 }

/-- `code === 'all' ? index.global : getReferral(index, code)` — shared by every
per-code query; the second component is the (possibly mutated) index. -/
def resolveReferral (index : AnalyticsIndex) (code : String) : ReferralIndex × AnalyticsIndex :=
  if code = "all" then (index.global, index) else getReferral index code

/-- `user.firstRevenueTxAt > rangeEndMs`, with JS `NaN` comparison semantics
(comparisons against the invalid date are false, so nothing is skipped). -/
def afterRangeEnd (endMs? : Option Int) (first : Int) : Bool :=
  match endMs? with
  | some e => decide (first > e + DAY_MS - 1)
  | none => false

/-- `user.lastRevenueTxAt < rangeStartMs`, with JS `NaN` comparison semantics. -/
def beforeRangeStart (startMs? : Option Int) (last : Int) : Bool :=
  match startMs? with
  | some s => decide (last < s)
  | none => false

/-- One step of the `referral.users.forEach` scan of `getReferralMetrics`:
accumulates (usersWithRevenueTx, retainedUsers, timeToFirstValues). -/
def userScanStep (range : DateRange) (startMs? endMs? : Option Int)
    (acc : Nat × Nat × List ℚ) (user : UserAgg) : Nat × Nat × List ℚ :=
  if optNumFalsy user.firstRevenueTxAt || optNumFalsy user.lastRevenueTxAt then acc
  else
    let first := user.firstRevenueTxAt.getD 0
    let last := user.lastRevenueTxAt.getD 0
    if afterRangeEnd endMs? first then acc
    else if beforeRangeStart startMs? last then acc
    else
      let usersWithRevenueTx := acc.1 + 1
      let firstDate := toDateKey first
      if isDateInRange firstDate range then
        let retainedUsers := if user.retainedWithin30d then acc.2.1 + 1 else acc.2.1
        let timeToFirstValues :=
          match user.timeToFirstTxMs with
          | some t => acc.2.2 ++ [(t : ℚ) / (DAY_MS : ℚ)]
          | none => acc.2.2
        (usersWithRevenueTx, retainedUsers, timeToFirstValues)
      else (usersWithRevenueTx, acc.2.1, acc.2.2)

def userScan (users : List UserAgg) (range : DateRange) (startMs? endMs? : Option Int) :
    Nat × Nat × List ℚ :=
  users.foldl (userScanStep range startMs? endMs?) (0, 0, [])

def ratLe (a b : ℚ) : Bool := decide (a ≤ b)

/-- Exact median of the already-sorted sample list, as computed in the source
(0 on the empty list; mean of the two middle values on even length). -/
def medianOfSorted (values : List ℚ) : ℚ :=
  let medianIndex := values.length / 2
  if values.length = 0 then 0
  else if values.length % 2 = 1 then values.getD medianIndex 0
  else (values.getD (medianIndex - 1) 0 + values.getD medianIndex 0) / 2

def getReferralMetrics (index : AnalyticsIndex) (code : String) (range : DateRange) :
    ReferralMetrics × AnalyticsIndex :=
  let r := resolveReferral index code
  let referral := r.1
  let signups := sumMapByRange referral.signupsByDate range
  let kycUsers := sumMapByRange referral.kycByDate range
  let firstRevenueTxUsers := sumMapByRange referral.firstRevenueTxByDate range
  let dailyTotals := sumDailyByRange referral.daily range
  let startMs? := msOfDateKey? range.start
  let endMs? := msOfDateKey? range.stop
  let scan := userScan (referral.users.map (·.2)) range startMs? endMs?
  let usersWithRevenueTx := scan.1
  let retainedUsers := scan.2.1
  let timeToFirstTxMedianDays := medianOfSorted (sortBy ratLe scan.2.2)
  ({ code := referral.code
     signups := signups
     kycUsers := kycUsers
     usersWithRevenueTx := usersWithRevenueTx
     firstRevenueTxUsers := firstRevenueTxUsers
     feeUsd := dailyTotals.feeUsd
     volumeUsd := dailyTotals.volumeUsd
     conversionRate := if signups = 0 then 0 else (usersWithRevenueTx : ℚ) / (signups : ℚ)
     feePerUser := if usersWithRevenueTx = 0 then 0
       else dailyTotals.feeUsd / (usersWithRevenueTx : ℚ)
     retention30d := if usersWithRevenueTx = 0 then 0
       else (retainedUsers : ℚ) / (usersWithRevenueTx : ℚ)
     timeToFirstTxMedianDays := timeToFirstTxMedianDays
     kycRate := if signups = 0 then 0 else (kycUsers : ℚ) / (signups : ℚ) }, r.2)

/-- `eachDayOfInterval({start, end})` mapped through `format(_, 'yyyy-MM-dd')`;
empty on an invalid or reversed interval (where the source library throws). -/
def daysOfRange (range : DateRange) : List String :=
  match parseDateKeyDays? range.start, parseDateKeyDays? range.stop with
  | some ds, some de =>
    if ds ≤ de then (List.range (de - ds + 1).toNat).map (fun i => dateKeyOfDays (ds + i))
    else []
  | _, _ => []

structure DailyPoint where
  date : String
  feeUsd : ℚ
  volumeUsd : ℚ
  revenueTxCount : Nat
  signups : Nat
  firstRevenueTxUsers : Nat
deriving DecidableEq, Repr

def getDailySeries (index : AnalyticsIndex) (code : String) (range : DateRange) :
    List DailyPoint × AnalyticsIndex :=
  let r := resolveReferral index code
  let referral := r.1
  let series := (daysOfRange range).map (fun dateKey =>
    let daily := mget referral.daily dateKey
    { date := dateKey
      feeUsd := (daily.map (·.feeUsd)).getD 0
      volumeUsd := (daily.map (·.volumeUsd)).getD 0
      revenueTxCount := (daily.map (·.revenueTxCount)).getD 0
      signups := (mget referral.signupsByDate dateKey).getD 0
      firstRevenueTxUsers := (mget referral.firstRevenueTxByDate dateKey).getD 0 })
  (series, r.2)

structure FeeCategoryBreakdown where
  category : String
  feeUsd : ℚ
  revenueTxCount : Nat
deriving DecidableEq, Repr

def feeDesc (a b : FeeCategoryBreakdown) : Bool := decide (b.feeUsd ≤ a.feeUsd)

def getFeeCategoryBreakdown (index : AnalyticsIndex) (code : String) (range : DateRange) :
    List FeeCategoryBreakdown × AnalyticsIndex :=
  let r := resolveReferral index code
  let referral := r.1
  let totals := referral.feeByCategoryDaily.foldl (fun acc p =>
    let sums : ℚ × Nat := p.2.foldl (fun s q =>
      if isDateInRange q.1 range then (s.1 + q.2.feeUsd, s.2 + q.2.revenueTxCount) else s)
      ((0 : ℚ), (0 : Nat))
    if sums.1 > 0 then mset acc p.1 { feeUsd := sums.1, revenueTxCount := sums.2 } else acc)
    ([] : SMap FeeCategoryAgg)
  (sortBy feeDesc (totals.map (fun p =>
      ({ category := p.1, feeUsd := p.2.feeUsd, revenueTxCount := p.2.revenueTxCount }
        : FeeCategoryBreakdown))), r.2)

def VOLUME_CATEGORY_ORDER : List String :=
  ["Swap", "Crypto Deposits", "Crypto Withdraw", "Liquidity Pool",
   "On Ramp Transfers", "Off Ramp"]

def normalizeVolumeCategory (category : String) : String :=
  let normalized := strToUpper (strTrim category)
  if normalized = "SWAP" ∨ normalized = "CROSS_SWAP" then "Swap"
  else if normalized = "CRYPTO_DEPOSIT" then "Crypto Deposits"
  else if normalized = "CRYPTO_WITHDRAW" then "Crypto Withdraw"
  else if strStartsWith normalized "LIQUIDITY_POOL" then "Liquidity Pool"
  else if normalized = "ON_RAMP" then "On Ramp Transfers"
  else if normalized = "OFF_RAMP" then "Off Ramp"
  else ""

structure VolumeCategoryBreakdown where
  category : String
  volumeUsd : ℚ
  revenueTxCount : Nat
deriving DecidableEq, Repr

def getVolumeCategoryBreakdown (index : AnalyticsIndex) (code : String) (range : DateRange) :
    List VolumeCategoryBreakdown × AnalyticsIndex :=
  let r := resolveReferral index code
  let referral := r.1
  let totals := referral.volumeByCategoryDaily.foldl (fun acc p =>
    let sums : ℚ × Nat := p.2.foldl (fun s q =>
      if isDateInRange q.1 range then (s.1 + q.2.volumeUsd, s.2 + q.2.revenueTxCount) else s)
      ((0 : ℚ), (0 : Nat))
    if sums.1 > 0 then mset acc p.1 { volumeUsd := sums.1, revenueTxCount := sums.2 } else acc)
    ([] : SMap VolumeCategoryAgg)
  let grouped := totals.foldl (fun g p =>
    let label := normalizeVolumeCategory p.1
    if label = "" then g
    else
      let existing := (mget g label).getD { volumeUsd := 0, revenueTxCount := 0 }
      mset g label { volumeUsd := existing.volumeUsd + p.2.volumeUsd,
                     revenueTxCount := existing.revenueTxCount + p.2.revenueTxCount })
    ([] : SMap VolumeCategoryAgg)
  (VOLUME_CATEGORY_ORDER.map (fun label =>
    { category := label
      volumeUsd := ((mget grouped label).map (·.volumeUsd)).getD 0
      revenueTxCount := ((mget grouped label).map (·.revenueTxCount)).getD 0 }), r.2)

/-- A row of `getVolumeCategoryDailySeries`: the source uses a record with the
fixed `date`/`total` fields plus one dynamically-named field per category
label; the dynamic fields are embedded as the map `cats`. -/
structure VRow where
  date : String
  total : ℚ
  cats : SMap ℚ
deriving DecidableEq, Repr

structure VolumeCategoryDailySeries where
  data : List VRow
  keys : List String
deriving DecidableEq, Repr

def getVolumeCategoryDailySeries (index : AnalyticsIndex) (code : String) (range : DateRange) :
    VolumeCategoryDailySeries × AnalyticsIndex :=
  let r := resolveReferral index code
  let referral := r.1
  let data0 : List VRow := (daysOfRange range).map (fun d => { date := d, total := 0, cats := [] })
  let data := referral.volumeByCategoryDaily.foldl (fun rows p =>
    let label := normalizeVolumeCategory p.1
    if label = "" then rows
    else p.2.foldl (fun rows q =>
      if isDateInRange q.1 range then
        rows.map (fun row =>
          if row.date = q.1 then
            { row with
              cats := mset row.cats label (((mget row.cats label).getD 0) + q.2.volumeUsd)
              total := row.total + q.2.volumeUsd }
          else row)
      else rows) rows) data0
  ({ data := data, keys := VOLUME_CATEGORY_ORDER }, r.2)

structure TokenVolumeBreakdown where
  symbol : String
  volumeUsd : ℚ
  txCount : Nat
deriving DecidableEq, Repr

def tokenVolDesc (a b : TokenVolumeBreakdown) : Bool := decide (b.volumeUsd ≤ a.volumeUsd)

def getTokenVolumeBreakdown (index : AnalyticsIndex) (code : String) (range : DateRange) :
    List TokenVolumeBreakdown × AnalyticsIndex :=
  let r := resolveReferral index code
  let referral := r.1
  let totals := referral.tokenVolumeBySymbolDaily.foldl (fun acc p =>
    let sums : ℚ × Nat := p.2.foldl (fun s q =>
      if isDateInRange q.1 range then (s.1 + q.2.volumeUsd, s.2 + q.2.txCount) else s)
      ((0 : ℚ), (0 : Nat))
    if sums.1 > 0 then mset acc p.1 { volumeUsd := sums.1, txCount := sums.2 } else acc)
    ([] : SMap TokenVolumeAgg)
  (sortBy tokenVolDesc (totals.map (fun p =>
      ({ symbol := p.1, volumeUsd := p.2.volumeUsd, txCount := p.2.txCount }
        : TokenVolumeBreakdown))), r.2)

def getTopTokenByVolume (index : AnalyticsIndex) (code : String) (range : DateRange) :
    Option TokenVolumeBreakdown × AnalyticsIndex :=
  let b := getTokenVolumeBreakdown index code range
  (b.1.head?, b.2)

structure CategoryStat where
  category : String
  txCount : Nat
  volumeUsd : ℚ
deriving DecidableEq, Repr

structure TokenTransactionSummary where
  symbol : String
  txCount : Nat
  volumeUsd : ℚ
  categories : List CategoryStat
deriving DecidableEq, Repr

structure TokenTotalsEntry where
  txCount : Nat
  volumeUsd : ℚ
  categories : SMap TokenCategoryAgg
deriving DecidableEq, Repr

/-- `(a, b) => b.txCount - a.txCount || b.volumeUsd - a.volumeUsd`. -/
def catDesc (a b : CategoryStat) : Bool :=
  decide (a.txCount > b.txCount ∨ (a.txCount = b.txCount ∧ b.volumeUsd ≤ a.volumeUsd))

/-- `(a, b) => b.volumeUsd - a.volumeUsd || b.txCount - a.txCount`. -/
def tokenSummaryDesc (a b : TokenTransactionSummary) : Bool :=
  decide (a.volumeUsd > b.volumeUsd ∨ (a.volumeUsd = b.volumeUsd ∧ b.txCount ≤ a.txCount))

def getTopTokenTransactions (index : AnalyticsIndex) (code : String) (range : DateRange)
    (limit : Nat) : List TokenTransactionSummary × AnalyticsIndex :=
  let r := resolveReferral index code
  let referral := r.1
  let totals := referral.tokenCategoryBySymbolDaily.foldl (fun acc p =>
    p.2.foldl (fun acc q =>
      if !(isDateInRange q.1 range) then acc
      else
        let entry := (mget acc p.1).getD { txCount := 0, volumeUsd := 0, categories := [] }
        let entry := q.2.foldl (fun e c =>
          let existing := (mget e.categories c.1).getD { volumeUsd := 0, txCount := 0 }
          { txCount := e.txCount + c.2.txCount
            volumeUsd := e.volumeUsd + c.2.volumeUsd
            categories := mset e.categories c.1
              { txCount := existing.txCount + c.2.txCount
                volumeUsd := existing.volumeUsd + c.2.volumeUsd } }) entry
        mset acc p.1 entry) acc)
    ([] : SMap TokenTotalsEntry)
  let sorted := sortBy tokenSummaryDesc (totals.map (fun p =>
    ({ symbol := p.1
       txCount := p.2.txCount
       volumeUsd := p.2.volumeUsd
       categories := sortBy catDesc (p.2.categories.map (fun c =>
         ({ category := c.1, txCount := c.2.txCount, volumeUsd := c.2.volumeUsd }
           : CategoryStat))) } : TokenTransactionSummary)))
  (sorted.take limit, r.2)

structure SwapFlowLink where
  source : String
  target : String
  volumeUsd : ℚ
  txCount : Nat
deriving DecidableEq, Repr

/-- `(a, b) => b.volumeUsd - a.volumeUsd || b.txCount - a.txCount`. -/
def swapLinkDesc (a b : SwapFlowLink) : Bool :=
  decide (a.volumeUsd > b.volumeUsd ∨ (a.volumeUsd = b.volumeUsd ∧ b.txCount ≤ a.txCount))

def getSwapFlowLinks (index : AnalyticsIndex) (code : String) (range : DateRange)
    (limit : Nat) : List SwapFlowLink × AnalyticsIndex :=
  let r := resolveReferral index code
  let referral := r.1
  let totals := referral.swapFlowByPairDaily.foldl (fun acc p =>
    let sums : ℚ × Nat := p.2.foldl (fun s q =>
      if isDateInRange q.1 range then (s.1 + q.2.volumeUsd, s.2 + q.2.txCount) else s)
      ((0 : ℚ), (0 : Nat))
    if sums.1 > 0 then mset acc p.1 { volumeUsd := sums.1, txCount := sums.2 } else acc)
    ([] : SMap SwapFlowAgg)
  let links := totals.filterMap (fun p =>
    match (splitOnSep '→' p.1.data).map (fun l => (⟨l⟩ : String)) with
    | source :: target :: _ =>
      if source ≠ "" ∧ target ≠ "" then
        some ({ source := source, target := target, volumeUsd := p.2.volumeUsd,
                txCount := p.2.txCount } : SwapFlowLink)
      else none
    | _ => none)
  ((sortBy swapLinkDesc links).take limit, r.2)

structure SankeyNode where
  name : String
deriving DecidableEq, Repr

structure SankeyLink where
  source : Nat
  target : Nat
  value : ℚ
  txCount : Nat
deriving DecidableEq, Repr

structure SwapSankeyData where
  nodes : List SankeyNode
  links : List SankeyLink
deriving DecidableEq, Repr

def getSwapFlowSankeyData (index : AnalyticsIndex) (code : String) (range : DateRange)
    (limit : Nat) : SwapSankeyData × AnalyticsIndex :=
  let l := getSwapFlowLinks index code range limit
  let links := l.1
  let nodeWeights := links.foldl (fun w link =>
    let source := link.source ++ " (out)"
    let target := link.target ++ " (in)"
    let w := mset w source (((mget w source).getD 0) + link.volumeUsd)
    mset w target (((mget w target).getD 0) + link.volumeUsd)) ([] : SMap ℚ)
  let nodeOrder := links.foldl (fun o link =>
    let source := link.source ++ " (out)"
    let target := link.target ++ " (in)"
    let o := if o.contains source then o else o ++ [source]
    if o.contains target then o else o ++ [target]) ([] : List String)
  let orderedNodes := (sortBy (fun a b =>
    decide (((mget nodeWeights b).getD 0) ≤ ((mget nodeWeights a).getD 0))) nodeOrder).map
    (fun name => ({ name := name } : SankeyNode))
  let nodeIndexOf := fun (name : String) =>
    ((orderedNodes.findIdx? (fun n => n.name == name)).getD 0)
  let sankeyLinks := links.map (fun link =>
    ({ source := nodeIndexOf (link.source ++ " (out)")
       target := nodeIndexOf (link.target ++ " (in)")
       value := link.volumeUsd
       txCount := link.txCount } : SankeyLink))
  ({ nodes := orderedNodes, links := sankeyLinks }, l.2)

def getReferralList (index : AnalyticsIndex) : List String :=
  sortBy strLe (mkeys index.referrals)

/-! ## Snapshot Codec -/

/-- Serialized referral aggregate.  A JS `Map` serializes to its entry list,
which in this embedding is the map itself; entry objects such as
`{ category, daily }` are embedded as pairs. -/
structure SerializedReferral where
  code : String
  signupsByDate : List (String × Nat)
  kycByDate : List (String × Nat)
  firstRevenueTxByDate : List (String × Nat)
  daily : List (String × DailyAgg)
  feeByCategory : List (String × FeeCategoryAgg)
  feeByCategoryDaily : List (String × List (String × FeeCategoryAgg))
  volumeByCategory : List (String × VolumeCategoryAgg)
  volumeByCategoryDaily : List (String × List (String × VolumeCategoryAgg))
  tokenVolumeBySymbol : List (String × TokenVolumeAgg)
  tokenVolumeBySymbolDaily : List (String × List (String × TokenVolumeAgg))
  tokenCategoryBySymbolDaily : List (String × List (String × List (String × TokenCategoryAgg)))
  swapFlowByPair : List (String × SwapFlowAgg)
  swapFlowByPairDaily : List (String × List (String × SwapFlowAgg))
  users : List UserAgg
  topRevenueTxs : List RevenueTxLite
  feeUsdTotal : ℚ
  volumeUsdTotal : ℚ
  revenueTxCount : Nat
deriving DecidableEq, Repr

structure AnalyticsSnapshot where
  metadata : Option AnalyticsMetadata
  options : AnalyticsOptions
  totals : AnalyticsTotals
  customers : List Customer
  global : SerializedReferral
  referrals : List SerializedReferral
  referralCodes : List ReferralCodeMeta
  ownerUsageDaily : List (String × List (String × DailyAgg))
  customerUsageDaily : List (String × List (String × DailyAgg))
deriving DecidableEq, Repr

def serializeReferral (referral : ReferralIndex) : SerializedReferral :=
  { code := referral.code
    signupsByDate := referral.signupsByDate
    kycByDate := referral.kycByDate
    firstRevenueTxByDate := referral.firstRevenueTxByDate
    daily := referral.daily
    feeByCategory := referral.feeByCategory
    feeByCategoryDaily := referral.feeByCategoryDaily
    volumeByCategory := referral.volumeByCategory
    volumeByCategoryDaily := referral.volumeByCategoryDaily
    tokenVolumeBySymbol := referral.tokenVolumeBySymbol
    tokenVolumeBySymbolDaily := referral.tokenVolumeBySymbolDaily
    tokenCategoryBySymbolDaily := referral.tokenCategoryBySymbolDaily
    swapFlowByPair := referral.swapFlowByPair
    swapFlowByPairDaily := referral.swapFlowByPairDaily
    users := referral.users.map (·.2)
    topRevenueTxs := referral.topRevenueTxs
    feeUsdTotal := referral.feeUsdTotal
    volumeUsdTotal := referral.volumeUsdTotal
    revenueTxCount := referral.revenueTxCount }

def serializeIndex (index : AnalyticsIndex) : AnalyticsSnapshot :=
  { metadata := index.metadata
    options := index.options
    totals := index.totals
    customers := index.customersByWallet.map (·.2)
    global := serializeReferral index.global
    referrals := index.referrals.map (fun p => serializeReferral p.2)
    referralCodes := index.referralCodes.map (·.2)
    ownerUsageDaily := index.ownerUsageDaily
    customerUsageDaily := index.customerUsageDaily }

/-- Rebuild a map from its serialized entry list (`entries.forEach(([k, v]) =>
m.set(k, v))`, and `new Map(entries)`). -/
def mapFromPairs {α : Type} (entries : List (String × α)) : SMap α :=
  entries.foldl (fun acc p => mset acc p.1 p.2) []

def deserializeReferral (sr : SerializedReferral) : ReferralIndex :=
  { code := sr.code
    signupsByDate := mapFromPairs sr.signupsByDate
    kycByDate := mapFromPairs sr.kycByDate
    firstRevenueTxByDate := mapFromPairs sr.firstRevenueTxByDate
    daily := mapFromPairs sr.daily
    feeByCategory := mapFromPairs sr.feeByCategory
    feeByCategoryDaily :=
      sr.feeByCategoryDaily.foldl (fun acc e => mset acc e.1 (mapFromPairs e.2)) []
    volumeByCategory := mapFromPairs sr.volumeByCategory
    volumeByCategoryDaily :=
      sr.volumeByCategoryDaily.foldl (fun acc e => mset acc e.1 (mapFromPairs e.2)) []
    tokenVolumeBySymbol := mapFromPairs sr.tokenVolumeBySymbol
    tokenVolumeBySymbolDaily :=
      sr.tokenVolumeBySymbolDaily.foldl (fun acc e => mset acc e.1 (mapFromPairs e.2)) []
    tokenCategoryBySymbolDaily :=
      sr.tokenCategoryBySymbolDaily.foldl (fun acc e =>
        mset acc e.1 (e.2.foldl (fun inner d => mset inner d.1 (mapFromPairs d.2)) [])) []
    swapFlowByPair := mapFromPairs sr.swapFlowByPair
    swapFlowByPairDaily :=
      sr.swapFlowByPairDaily.foldl (fun acc e => mset acc e.1 (mapFromPairs e.2)) []
    users := sr.users.foldl (fun acc u => mset acc u.wallet u) []
    topRevenueTxs := sr.topRevenueTxs
    feeUsdTotal := sr.feeUsdTotal
    volumeUsdTotal := sr.volumeUsdTotal
    revenueTxCount := sr.revenueTxCount }

def deserializeIndex (snapshot : AnalyticsSnapshot) : AnalyticsIndex :=
  let base := createAnalyticsIndex snapshot.options
  { base with
    customersByWallet :=
      snapshot.customers.foldl (fun acc c => mset acc c.smartWallet c) []
    customersById := snapshot.customers.foldl (fun acc c => mset acc c.id c) []
    global := deserializeReferral snapshot.global
    referrals :=
      snapshot.referrals.foldl (fun acc sr => mset acc sr.code (deserializeReferral sr)) []
    usersByWallet :=
      snapshot.referrals.foldl (fun acc sr =>
        sr.users.foldl (fun a u => mset a u.wallet u) acc) []
    referralCodes := snapshot.referralCodes.foldl (fun acc meta => mset acc meta.code meta) []
    ownerUsageDaily :=
      snapshot.ownerUsageDaily.foldl (fun acc e => mset acc e.1 (mapFromPairs e.2)) []
    customerUsageDaily :=
      snapshot.customerUsageDaily.foldl (fun acc e => mset acc e.1 (mapFromPairs e.2)) []
    metadata := snapshot.metadata
    totals := snapshot.totals }

/-! ## Propagation Analyzer (`buildDescendantStats`) -/

structure PropagationChild where
  code : String
  creatorId : String
  creatorLabel : String
deriving DecidableEq, Repr

abbrev PropagationMap := SMap (List PropagationChild)

structure DescendantStats where
  total : Nat
  maxDepth : Nat
deriving DecidableEq, Repr

/-- Every code mentioned by a propagation map (keys and children). -/
def propUniv (map : PropagationMap) : Finset String :=
  (mkeys map ++ (map.map (·.2)).flatten.map (·.code)).toFinset

/-- The `children.forEach` loop of `buildDescendantStats`: children already on
the stack are skipped, the others are visited in order through the `visit`
callback (the recursive call), threading the memo cache. -/
def bdsChildren
    (visit : String → SMap DescendantStats → List String →
      Option (DescendantStats × SMap DescendantStats)) :
    List PropagationChild → SMap DescendantStats → List String →
      Option (Nat × Nat × SMap DescendantStats)
  | [], cache, _ => some (0, 0, cache)
  | child :: rest, cache, stack =>
    if child.code ∈ stack then bdsChildren visit rest cache stack
    else
      match visit child.code cache stack with
      | none => none
      | some (childStats, cache1) =>
        match bdsChildren visit rest cache1 stack with
        | none => none
        | some (total, maxDepth, cache2) =>
          some (1 + childStats.total + total, max (1 + childStats.maxDepth) maxDepth, cache2)

/-- `buildDescendantStats`, embedded with an explicit fuel parameter (`none` on
exhausted fuel); the memo cache is threaded through, and the recursion-guard
set is the `stack` list.  `bdsFuel_isSome` below shows that the fuel
`defaultFuel map` always suffices, i.e. the source recursion terminates. -/
def bdsFuel : Nat → PropagationMap → String → SMap DescendantStats → List String →
    Option (DescendantStats × SMap DescendantStats)
  | 0, _, _, _, _ => none
  | fuel + 1, map, code, cache, stack =>
    match mget cache code with
    | some cached => some (cached, cache)
    | none =>
      if code ∈ stack then some ({ total := 0, maxDepth := 0 }, cache)
      else
        let children := (mget map code).getD []
        match bdsChildren (fun c ca st => bdsFuel fuel map c ca st) children cache
            (code :: stack) with
        | none => none
        | some (total, maxDepth, cache1) =>
          let stats : DescendantStats := { total := total, maxDepth := maxDepth }
          some (stats, mset cache1 code stats)

/-- Fuel that always suffices for `bdsFuel` (proved in `bdsFuel_isSome`). -/
def defaultFuel (map : PropagationMap) : Nat := (propUniv map).card + 2

def buildDescendantStats (map : PropagationMap) (code : String) :
    DescendantStats × SMap DescendantStats :=
  (bdsFuel (defaultFuel map) map code [] []).getD ({ total := 0, maxDepth := 0 }, [])


/-! ## Verification-side definitions: invariants of the analytics index -/

def sumRevCount (m : SMap ReferralIndex) : Nat :=
  (m.map (fun p => p.2.revenueTxCount)).sum

def sumDailyFee (m : SMap DailyAgg) : ℚ := (m.map (fun p => p.2.feeUsd)).sum

def sumCatFee (m : SMap FeeCategoryAgg) : ℚ := (m.map (fun p => p.2.feeUsd)).sum

/-- Bucket consistency of one aggregate: the running fee total equals the sum
of the daily buckets and the sum of the per-category buckets. -/
def BucketSums (agg : ReferralIndex) : Prop :=
  agg.feeUsdTotal = sumDailyFee agg.daily ∧ agg.feeUsdTotal = sumCatFee agg.feeByCategory

/-- Structural well-formedness of one referral aggregate: all bucket maps have
pairwise-distinct keys and the users map is keyed by the user's wallet. -/
structure WFAgg (agg : ReferralIndex) : Prop where
  signups : NK agg.signupsByDate
  kyc : NK agg.kycByDate
  firstRev : NK agg.firstRevenueTxByDate
  daily : NK agg.daily
  feeCat : NK agg.feeByCategory
  feeCatDaily : NK2 agg.feeByCategoryDaily
  volCat : NK agg.volumeByCategory
  volCatDaily : NK2 agg.volumeByCategoryDaily
  tokVol : NK agg.tokenVolumeBySymbol
  tokVolDaily : NK2 agg.tokenVolumeBySymbolDaily
  tokCatDaily : NK3 agg.tokenCategoryBySymbolDaily
  swap : NK agg.swapFlowByPair
  swapDaily : NK2 agg.swapFlowByPairDaily
  users : NK agg.users
  usersKey : ∀ p ∈ agg.users, p.2.wallet = p.1

/-- The maintained invariant of the analytics index, established by
`createAnalyticsIndex` and preserved by every ingestion call. -/
structure Inv (ix : AnalyticsIndex) : Prop where
  wfGlobal : WFAgg ix.global
  refsNK : NK ix.referrals
  refs : ∀ p ∈ ix.referrals, WFAgg p.2
  refsCode : ∀ p ∈ ix.referrals, p.2.code = p.1
  ubwKey : ∀ p ∈ ix.usersByWallet, p.2.wallet = p.1
  custLink : ∀ w c, mget ix.customersByWallet w = some c →
    ∃ agg, mget ix.referrals (trimCode c.referral) = some agg ∧ (mget agg.users w).isSome
  attrib : ix.totals.revenueTxCount = sumRevCount ix.referrals + ix.totals.unattributedTxCount
  bucketsGlobal : BucketSums ix.global
  buckets : ∀ p ∈ ix.referrals, BucketSums p.2


/-! ## Verification-side definitions for the user-scan semantics (C8, C9) -/

/-- The overlap test applied to each user by the `getReferralMetrics` scan, as
coded: both timestamps truthy, the first revenue tx not after the range end,
the last revenue tx not before the range start. -/
def userOverlaps (startMs? endMs? : Option Int) (u : UserAgg) : Bool :=
  !(optNumFalsy u.firstRevenueTxAt || optNumFalsy u.lastRevenueTxAt) &&
  !(afterRangeEnd endMs? (u.firstRevenueTxAt.getD 0)) &&
  !(beforeRangeStart startMs? (u.lastRevenueTxAt.getD 0))

/-- `retainedUsers` as the code counts it: overlap users whose *first* revenue
transaction date falls inside the range, and that are retained-within-30d. -/
def retainedUsersCode (users : List UserAgg) (range : DateRange)
    (startMs? endMs? : Option Int) : Nat :=
  users.countP (fun u => userOverlaps startMs? endMs? u
    && isDateInRange (toDateKey (u.firstRevenueTxAt.getD 0)) range && u.retainedWithin30d)

/-- `retainedUsers` as the claim reads: overlap users with
`retainedWithin30d = true` (no condition on the first-transaction date).
Modelled from the spec sentence, for comparison with the code. -/
def retainedUsersSpec (users : List UserAgg)
    (startMs? endMs? : Option Int) : Nat :=
  users.countP (fun u => userOverlaps startMs? endMs? u && u.retainedWithin30d)

/-- `retention30d` as the claim states it: retained overlap users over overlap
users (0 on a zero denominator). Modelled from the spec sentence, for
comparison with the code. -/
def retention30dClaim (users : List UserAgg)
    (startMs? endMs? : Option Int) : ℚ :=
  let overlap := users.countP (userOverlaps startMs? endMs?)
  if overlap = 0 then 0
  else (retainedUsersSpec users startMs? endMs? : ℚ) / (overlap : ℚ)


/-! ## Verification-side definitions for last-writer linkage (C10) and the
revenue-transaction sample retention policy (C6) -/

/-- Last-writer linkage: every wallet recorded in `customersByWallet` points to
its most recent `Customer` record, and that record's referral aggregate,
`usersByWallet`, both hold the freshly initialised `UserAgg` for it. -/
def lastWriterLink (ix : AnalyticsIndex) : Prop :=
  ∀ w c, mget ix.customersByWallet w = some c →
    w = c.smartWallet ∧
    ∃ agg, mget ix.referrals (trimCode c.referral) = some agg ∧
      mget agg.users w = some (initialUserAgg c) ∧
      mget ix.usersByWallet w = some (initialUserAgg c)

/-- Invariant of the `maybeStoreTx` fold: the stored sample holds
`min processed N` entries, and the processed multiset splits into the sample
plus discarded entries that are all no newer than any stored entry. -/
def storedSampleInv (N : Nat) (processed stored : List RevenueTxLite) : Prop :=
  stored.length = min processed.length N ∧
  ∃ disc, processed.Perm (stored ++ disc) ∧
    ∀ s ∈ stored, ∀ d ∈ disc, d.createdAt ≤ s.createdAt


/-! ## Concrete instances (used by counterexamples and witnesses) -/

def exOptions : AnalyticsOptions := { keepFullTx := false, maxStoredTxs := 500 }

def exFresh : AnalyticsIndex := createAnalyticsIndex exOptions

def exRange : DateRange := { start := "1970-01-05", stop := "1970-01-31" }

def exCustomerX : Customer :=
  { id := "c1", email := "a@b", eoa := "0xe", smartWallet := "0xabc", signupAt := 86400000,
    signupDate := "1970-01-02", provider := "p", notusId := none, referral := "X" }

def exIxX : AnalyticsIndex := addCustomer exFresh exCustomerX

def exTx1 : ParsedRevenueTx :=
  { wallet := "0xabc", createdAt := 2 * 86400000, feeUsd := 10, volumeUsd := 100,
    category := "SWAP", tokens := none, swapFlow := none, hash := none }

def exTx2 : ParsedRevenueTx :=
  { wallet := "0xabc", createdAt := 10 * 86400000, feeUsd := 5, volumeUsd := 50,
    category := "SWAP", tokens := none, swapFlow := none, hash := none }

def exTxUnattributed : ParsedRevenueTx :=
  { wallet := "0xdef", createdAt := 2 * 86400000, feeUsd := 10, volumeUsd := 100,
    category := "SWAP", tokens := none, swapFlow := none, hash := none }

/-- A user whose first revenue tx (1970-01-03) falls before `exRange` but whose
last (1970-01-11, within 30 days of the first, hence retained) falls inside. -/
def exIxRetention : AnalyticsIndex :=
  addRevenueTransaction (addRevenueTransaction exIxX exTx1) exTx2

def exCustomerA : Customer :=
  { id := "cA", email := "a@b", eoa := "0xe", smartWallet := "0xabc", signupAt := 86400000,
    signupDate := "1970-01-02", provider := "p", notusId := none, referral := "A" }

def exCustomerB : Customer :=
  { id := "cB", email := "a@b", eoa := "0xe", smartWallet := "0xabc", signupAt := 86400000,
    signupDate := "1970-01-02", provider := "p", notusId := none, referral := "B" }

/-- The same wallet signed up twice, under referral "A" then under "B". -/
def exIxDup : AnalyticsIndex := addCustomer (addCustomer exFresh exCustomerA) exCustomerB

def exOptsSmall : AnalyticsOptions := { keepFullTx := false, maxStoredTxs := 2 }

def exTx3 : ParsedRevenueTx :=
  { wallet := "0xabc", createdAt := 20 * 86400000, feeUsd := 1, volumeUsd := 2,
    category := "SWAP", tokens := none, swapFlow := none, hash := none }

def exChild (code : String) : PropagationChild :=
  { code := code, creatorId := "", creatorLabel := "" }

/-- A cyclic creation graph: A → B → C → A. -/
def exCycleMap : PropagationMap :=
  [("A", [exChild "B"]), ("B", [exChild "C"]), ("C", [exChild "A"])]


/-! # Proofs

## Association-list map lemmas -/

@[simp] theorem mget_nil {α : Type} (k : String) : mget ([] : SMap α) k = none := rfl

theorem mget_cons {α : Type} (p : String × α) (rest : SMap α) (k : String) :
    mget (p :: rest) k = if p.1 == k then some p.2 else mget rest k := by
  by_cases h : p.1 == k <;> simp [mget, List.find?_cons, h]

@[simp] theorem mhas_nil {α : Type} (k : String) : mhas ([] : SMap α) k = false := rfl

theorem mhas_cons {α : Type} (p : String × α) (rest : SMap α) (k : String) :
    mhas (p :: rest) k = (p.1 == k || mhas rest k) := by
  simp [mhas]

theorem mhas_eq_isSome_mget {α : Type} (m : SMap α) (k : String) :
    mhas m k = (mget m k).isSome := by
  induction m with
  | nil => rfl
  | cons p rest ih =>
    rw [mhas_cons, mget_cons]
    by_cases h : p.1 == k <;> simp [h, ih]

theorem mhas_iff_mem_mkeys {α : Type} {m : SMap α} {k : String} :
    mhas m k = true ↔ k ∈ mkeys m := by
  induction m with
  | nil => simp [mkeys]
  | cons p rest ih =>
    rw [mhas_cons]
    show _ ↔ k ∈ p.1 :: mkeys rest
    rw [List.mem_cons]
    by_cases h : p.1 = k
    · simp [h]
    · have hb : (p.1 == k) = false := by simpa using h
      have hk : ¬ k = p.1 := fun hc => h hc.symm
      simp [hb, hk, ih]

@[simp] theorem mget_mset_self {α : Type} (m : SMap α) (k : String) (v : α) :
    mget (mset m k v) k = some v := by
  induction m with
  | nil => simp [mset, mget_cons]
  | cons p rest ih =>
    rw [mset]
    by_cases h : p.1 == k <;> simp [h, mget_cons, ih]

theorem mget_mset_ne {α : Type} (m : SMap α) {k k' : String} (v : α) (h : ¬ k = k') :
    mget (mset m k v) k' = mget m k' := by
  induction m with
  | nil => simp [mset, mget_cons, h]
  | cons p rest ih =>
    by_cases hp : (p.1 == k) = true
    · have hpk : p.1 = k := by simpa using hp
      have h1 : (k == k') = false := by simpa using h
      simp [mset, hp, mget_cons, hpk, h1]
    · simp [mset, hp, mget_cons, ih]

theorem mkeys_mset_of_mhas {α : Type} (m : SMap α) (k : String) (v : α)
    (h : mhas m k = true) : mkeys (mset m k v) = mkeys m := by
  induction m with
  | nil => simp at h
  | cons p rest ih =>
    rw [mhas_cons] at h
    rw [mset]
    by_cases hp : p.1 == k
    · have hpk : p.1 = k := by simpa using hp
      simp [mkeys, hpk, hp]
    · simp [hp] at h
      simp [mkeys, hp] at ih ⊢
      exact ih h

theorem mkeys_mset_of_not_mhas {α : Type} (m : SMap α) (k : String) (v : α)
    (h : mhas m k = false) : mkeys (mset m k v) = mkeys m ++ [k] := by
  induction m with
  | nil => simp [mset, mkeys]
  | cons p rest ih =>
    rw [mhas_cons] at h
    by_cases hp : p.1 == k
    · simp [hp] at h
    · simp [hp] at h
      rw [mset]
      simp [mkeys, hp] at ih ⊢
      exact ih h

theorem NK_mset {α : Type} {m : SMap α} (k : String) (v : α) (h : NK m) : NK (mset m k v) := by
  unfold NK at h ⊢
  by_cases hm : mhas m k
  · rw [show (m.map Prod.fst) = mkeys m from rfl] at h
    rw [show ((mset m k v).map Prod.fst) = mkeys (mset m k v) from rfl,
      mkeys_mset_of_mhas m k v hm]
    exact h
  · rw [show ((mset m k v).map Prod.fst) = mkeys (mset m k v) from rfl,
      mkeys_mset_of_not_mhas m k v (Bool.not_eq_true _ ▸ eq_false_of_ne_true hm)]
    have hk : ¬ k ∈ mkeys m := fun hmem => hm (mhas_iff_mem_mkeys.mpr hmem)
    simp [List.nodup_append]
    exact ⟨h, hk⟩

theorem mem_mset {α : Type} {m : SMap α} {k : String} {v : α} {q : String × α}
    (h : q ∈ mset m k v) : q = (k, v) ∨ q ∈ m := by
  induction m with
  | nil => simpa [mset] using h
  | cons p rest ih =>
    rw [mset] at h
    by_cases hp : p.1 == k
    · simp [hp] at h
      rcases h with h | h
      · exact Or.inl (by simp [h])
      · exact Or.inr (by simp [h])
    · simp [hp] at h
      rcases h with h | h
      · exact Or.inr (by simp [h])
      · rcases ih h with h1 | h1
        · exact Or.inl h1
        · exact Or.inr (by simp [h1])

@[simp] theorem mkeys_updatePresent {α : Type} (m : SMap α) (k : String) (v : α) :
    mkeys (updatePresent m k v) = mkeys m := by
  induction m with
  | nil => rfl
  | cons p rest ih =>
    rw [updatePresent]
    by_cases hp : p.1 == k
    · have hpk : p.1 = k := by simpa using hp
      simp [mkeys, hpk, hp]
    · simp [mkeys, hp] at ih ⊢
      exact ih

theorem mem_updatePresent {α : Type} {m : SMap α} {k : String} {v : α} {q : String × α}
    (h : q ∈ updatePresent m k v) : q = (k, v) ∨ q ∈ m := by
  induction m with
  | nil => simp [updatePresent] at h
  | cons p rest ih =>
    rw [updatePresent] at h
    by_cases hp : p.1 == k
    · simp [hp] at h
      rcases h with h | h
      · exact Or.inl (by simp [h])
      · exact Or.inr (by simp [h])
    · simp [hp] at h
      rcases h with h | h
      · exact Or.inr (by simp [h])
      · rcases ih h with h1 | h1
        · exact Or.inl h1
        · exact Or.inr (by simp [h1])

theorem mget_updatePresent_ne {α : Type} (m : SMap α) {k k' : String} (v : α) (h : ¬ k = k') :
    mget (updatePresent m k v) k' = mget m k' := by
  induction m with
  | nil => rfl
  | cons p rest ih =>
    by_cases hp : (p.1 == k) = true
    · have hpk : p.1 = k := by simpa using hp
      have h1 : (k == k') = false := by simpa using h
      simp [updatePresent, hp, mget_cons, hpk, h1]
    · simp [updatePresent, hp, mget_cons, ih]

theorem mget_updatePresent_self {α : Type} (m : SMap α) (k : String) (v : α) :
    mget (updatePresent m k v) k = (mget m k).map (fun _ => v) := by
  induction m with
  | nil => rfl
  | cons p rest ih =>
    by_cases hp : (p.1 == k) = true
    · simp [updatePresent, hp, mget_cons]
    · simp [updatePresent, hp, mget_cons, ih]

theorem NK_updatePresent {α : Type} {m : SMap α} (k : String) (v : α) (h : NK m) :
    NK (updatePresent m k v) := by
  unfold NK at h ⊢
  rw [show ((updatePresent m k v).map Prod.fst) = mkeys (updatePresent m k v) from rfl,
    mkeys_updatePresent]
  exact h

theorem mhas_append {α : Type} (a b : SMap α) (k : String) :
    mhas (a ++ b) k = (mhas a k || mhas b k) := by
  simp [mhas, List.any_append]

theorem mset_of_not_mhas {α : Type} {m : SMap α} {k : String} (v : α) (h : mhas m k = false) :
    mset m k v = m ++ [(k, v)] := by
  induction m with
  | nil => simp [mset]
  | cons p rest ih =>
    rw [mhas_cons] at h
    by_cases hp : p.1 == k
    · simp [hp] at h
    · simp [hp] at h
      rw [mset]
      simp [hp, ih h]

/-- Replaying serialized entries through `mset` on a disjoint accumulator just
appends them: the core round-trip lemma for every deserialized map. -/
theorem foldMset_eq {σ α : Type} (key : σ → String) (val : σ → α) :
    ∀ (l : List σ) (acc : SMap α), (l.map key).Nodup →
      (∀ x ∈ l, mhas acc (key x) = false) →
      l.foldl (fun acc x => mset acc (key x) (val x)) acc
        = acc ++ l.map (fun x => (key x, val x)) := by
  intro l
  induction l with
  | nil => intro acc _ _; simp
  | cons x rest ih =>
    intro acc hnd hdis
    have hx : mhas acc (key x) = false := hdis x (by simp)
    rw [List.foldl_cons, mset_of_not_mhas (val x) hx]
    have hnd' := hnd
    rw [List.map_cons, List.nodup_cons] at hnd'
    obtain ⟨hxnotin, hndrest⟩ := hnd'
    have hdis' : ∀ y ∈ rest, mhas (acc ++ [(key x, val x)]) (key y) = false := by
      intro y hy
      rw [mhas_append]
      have h1 : mhas acc (key y) = false := hdis y (by simp [hy])
      have h2 : mhas [(key x, val x)] (key y) = false := by
        have hne : ¬ key x = key y := by
          intro hcontr
          exact hxnotin (List.mem_map.mpr ⟨y, hy, hcontr.symm⟩)
        simp [mhas_cons, hne]
      simp [h1, h2]
    rw [ih (acc ++ [(key x, val x)]) hndrest hdis']
    simp


/-! ## More map lemmas -/

theorem mget_mem {α : Type} {m : SMap α} {k : String} {v : α} (h : mget m k = some v) :
    (k, v) ∈ m := by
  induction m with
  | nil => simp at h
  | cons p rest ih =>
    rw [mget_cons] at h
    by_cases hp : (p.1 == k) = true
    · simp [hp] at h
      have hpv : p = (k, v) := by
        have hpk : p.1 = k := by simpa using hp
        obtain ⟨a, b⟩ := p
        simp_all
      exact List.mem_cons.mpr (Or.inl hpv.symm)
    · simp [hp] at h
      exact List.mem_cons.mpr (Or.inr (ih h))

theorem mset_self_of_mget {α : Type} {m : SMap α} {k : String} {v : α}
    (h : mget m k = some v) : mset m k v = m := by
  induction m with
  | nil => simp at h
  | cons p rest ih =>
    rw [mget_cons] at h
    by_cases hp : (p.1 == k) = true
    · have hpk : p.1 = k := by simpa using hp
      simp [hp] at h
      obtain ⟨a, b⟩ := p
      simp at hpk h
      simp [mset, hp, hpk, h]
    · simp [hp] at h
      simp [mset, hp, ih h]

theorem mset_mset_same {α : Type} (m : SMap α) (k : String) (v v' : α) :
    mset (mset m k v) k v' = mset m k v' := by
  induction m with
  | nil => simp [mset]
  | cons p rest ih =>
    by_cases hp : (p.1 == k) = true
    · simp [mset, hp]
    · simp [mset, hp, ih]

theorem forall_mem_mset {α : Type} (P : String × α → Prop) {m : SMap α} {k : String} {v : α}
    (hm : ∀ p ∈ m, P p) (hv : P (k, v)) :
    ∀ p ∈ mset m k v, P p := by
  intro p hp
  rcases mem_mset hp with h | h
  · exact h ▸ hv
  · exact hm p h

theorem forall_mem_updatePresent {α : Type} (P : String × α → Prop) {m : SMap α} {k : String}
    {v : α} (hm : ∀ p ∈ m, P p) (hv : P (k, v)) :
    ∀ p ∈ updatePresent m k v, P p := by
  intro p hp
  rcases mem_updatePresent hp with h | h
  · exact h ▸ hv
  · exact hm p h

/-! ## Sum lemmas -/

theorem sum_mset_new {α β : Type} [AddCommMonoid β] (f : α → β) {m : SMap α} {k : String}
    (v : α) (h : mhas m k = false) :
    ((mset m k v).map (fun p => f p.2)).sum = (m.map (fun p => f p.2)).sum + f v := by
  rw [mset_of_not_mhas v h]
  simp

theorem sum_mset_present {α β : Type} [AddCommMonoid β] (f : α → β) {m : SMap α} {k : String}
    {o : α} (v : α) (h : mget m k = some o) :
    ((mset m k v).map (fun p => f p.2)).sum + f o = (m.map (fun p => f p.2)).sum + f v := by
  induction m with
  | nil => simp at h
  | cons p rest ih =>
    rw [mget_cons] at h
    by_cases hp : (p.1 == k) = true
    · simp [hp] at h
      simp [mset, hp, h]
      abel
    · simp [hp] at h
      simp only [mset, hp, if_false, Bool.false_eq_true, List.map_cons, List.sum_cons]
      rw [add_assoc, add_assoc]
      exact congrArg (f p.2 + ·) (ih h)

/-! ## Well-formedness preservation -/

theorem NK_nil {α : Type} : NK ([] : SMap α) := by simp [NK]

theorem NK2_nil {α : Type} : NK2 ([] : SMap (SMap α)) := ⟨NK_nil, by simp⟩

theorem NK3_nil {α : Type} : NK3 ([] : SMap (SMap (SMap α))) := ⟨NK_nil, by simp⟩

theorem NK2_msetInner {α : Type} {m : SMap (SMap α)} (k1 k2 : String) (v : α) (h : NK2 m) :
    NK2 (mset m k1 (mset ((mget m k1).getD []) k2 v)) := by
  obtain ⟨h1, h2⟩ := h
  refine ⟨NK_mset _ _ h1, ?_⟩
  refine forall_mem_mset (fun p => NK p.2) h2 ?_
  apply NK_mset
  cases hg : mget m k1 with
  | none => simpa [hg] using NK_nil
  | some inner => simpa [hg] using h2 _ (mget_mem hg)

theorem NK3_msetInner {α : Type} {m : SMap (SMap (SMap α))} (k1 k2 k3 : String) (v : α)
    (h : NK3 m) :
    NK3 (mset m k1 (mset ((mget m k1).getD []) k2
      (mset ((mget ((mget m k1).getD []) k2).getD []) k3 v))) := by
  obtain ⟨h1, h2⟩ := h
  refine ⟨NK_mset _ _ h1, ?_⟩
  refine forall_mem_mset (fun p => NK2 p.2) h2 ?_
  have hin : NK2 ((mget m k1).getD []) := by
    cases hg : mget m k1 with
    | none => simpa [hg] using NK2_nil
    | some inner => simpa [hg] using h2 _ (mget_mem hg)
  exact NK2_msetInner k2 k3 v hin

theorem NK_incrementMap {m : SMap Nat} (k : String) (h : NK m) : NK (incrementMap m k) := by
  unfold incrementMap
  exact NK_mset _ _ h

theorem NK_bumpDaily {m : SMap DailyAgg} (d : String) (fee vol : ℚ) (h : NK m) :
    NK (bumpDaily m d fee vol) := by
  unfold bumpDaily
  exact NK_mset _ _ h

theorem NK_bumpFeeCategory {m : SMap FeeCategoryAgg} (c : String) (fee : ℚ) (h : NK m) :
    NK (bumpFeeCategory m c fee) := by
  unfold bumpFeeCategory
  exact NK_mset _ _ h

theorem NK2_bumpFeeCategoryDaily {m : SMap (SMap FeeCategoryAgg)} (c d : String) (fee : ℚ)
    (h : NK2 m) : NK2 (bumpFeeCategoryDaily m c d fee) := by
  unfold bumpFeeCategoryDaily
  exact NK2_msetInner _ _ _ h

theorem NK_bumpVolumeCategory {m : SMap VolumeCategoryAgg} (c : String) (vol : ℚ) (h : NK m) :
    NK (bumpVolumeCategory m c vol) := by
  unfold bumpVolumeCategory
  exact NK_mset _ _ h

theorem NK2_bumpVolumeCategoryDaily {m : SMap (SMap VolumeCategoryAgg)} (c d : String) (vol : ℚ)
    (h : NK2 m) : NK2 (bumpVolumeCategoryDaily m c d vol) := by
  unfold bumpVolumeCategoryDaily
  exact NK2_msetInner _ _ _ h

theorem NK_bumpTokenVolume {m : SMap TokenVolumeAgg} (sym : String) (vol : ℚ) (h : NK m) :
    NK (bumpTokenVolume m sym vol) := by
  unfold bumpTokenVolume
  exact NK_mset _ _ h

theorem NK2_bumpTokenVolumeDaily {m : SMap (SMap TokenVolumeAgg)} (sym d : String) (vol : ℚ)
    (h : NK2 m) : NK2 (bumpTokenVolumeDaily m sym d vol) := by
  unfold bumpTokenVolumeDaily
  exact NK2_msetInner _ _ _ h

theorem NK3_bumpTokenCategoryDaily {m : SMap (SMap (SMap TokenCategoryAgg))}
    (sym d c : String) (vol : ℚ) (h : NK3 m) : NK3 (bumpTokenCategoryDaily m sym d c vol) := by
  unfold bumpTokenCategoryDaily
  exact NK3_msetInner _ _ _ _ h

theorem NK_bumpSwapFlow {m : SMap SwapFlowAgg} (pair : String) (vol : ℚ) (h : NK m) :
    NK (bumpSwapFlow m pair vol) := by
  unfold bumpSwapFlow
  exact NK_mset _ _ h

theorem NK2_bumpSwapFlowDaily {m : SMap (SMap SwapFlowAgg)} (pair d : String) (vol : ℚ)
    (h : NK2 m) : NK2 (bumpSwapFlowDaily m pair d vol) := by
  unfold bumpSwapFlowDaily
  exact NK2_msetInner _ _ _ h

theorem WFAgg_create (code : String) : WFAgg (createReferralIndex code) := by
  constructor <;> simp [createReferralIndex, NK, NK2, NK3]

theorem BucketSums_create (code : String) : BucketSums (createReferralIndex code) := by
  constructor <;> simp [createReferralIndex, sumDailyFee, sumCatFee]

/-- The aggregate update performed by `addCustomer` on the owning referral and
on the global aggregate preserves well-formedness. -/
theorem WFAgg_customerUpdate {agg : ReferralIndex} {w : String} {u : UserAgg}
    (valid kyc : Bool) (d : String) (h : WFAgg agg) (hw : u.wallet = w) :
    WFAgg { agg with
      users := mset agg.users w u
      signupsByDate := if valid then incrementMap agg.signupsByDate d else agg.signupsByDate
      kycByDate := if valid && kyc then incrementMap agg.kycByDate d else agg.kycByDate } := by
  refine ⟨?_, ?_, h.firstRev, h.daily, h.feeCat, h.feeCatDaily, h.volCat, h.volCatDaily,
    h.tokVol, h.tokVolDaily, h.tokCatDaily, h.swap, h.swapDaily, ?_, ?_⟩
  · by_cases hv : valid = true <;> simp [hv]
    · exact NK_incrementMap _ h.signups
    · exact h.signups
  · by_cases hv : (valid && kyc) = true <;> simp [hv]
    · exact NK_incrementMap _ h.kyc
    · exact h.kyc
  · exact NK_mset _ _ h.users
  · exact forall_mem_mset (fun p : String × UserAgg => p.2.wallet = p.1) h.usersKey hw

theorem tokensFold_shape (dateKey category : String) (l : List TokenAmount) :
    ∀ a : ReferralIndex, ∃ t1 t2 t3, l.foldl (applyTxToken dateKey category) a
      = { a with
          tokenVolumeBySymbol := t1
          tokenVolumeBySymbolDaily := t2
          tokenCategoryBySymbolDaily := t3 } := by
  induction l with
  | nil =>
    intro a
    exact ⟨a.tokenVolumeBySymbol, a.tokenVolumeBySymbolDaily, a.tokenCategoryBySymbolDaily, rfl⟩
  | cons t rest ih =>
    intro a
    rw [List.foldl_cons]
    by_cases hg : t.symbol = "" ∨ t.volumeUsd = 0
    · rw [show applyTxToken dateKey category a t = a by simp [applyTxToken, hg]]
      exact ih a
    · rw [show applyTxToken dateKey category a t =
        { a with
          tokenVolumeBySymbol := bumpTokenVolume a.tokenVolumeBySymbol t.symbol t.volumeUsd
          tokenVolumeBySymbolDaily :=
            bumpTokenVolumeDaily a.tokenVolumeBySymbolDaily t.symbol dateKey t.volumeUsd
          tokenCategoryBySymbolDaily :=
            bumpTokenCategoryDaily a.tokenCategoryBySymbolDaily t.symbol dateKey category
              t.volumeUsd } by simp [applyTxToken, hg]]
      obtain ⟨t1, t2, t3, heq⟩ := ih _
      rw [heq]
      exact ⟨t1, t2, t3, rfl⟩

theorem tokensFold_WF (dateKey category : String) (l : List TokenAmount) :
    ∀ a : ReferralIndex, WFAgg a → WFAgg (l.foldl (applyTxToken dateKey category) a) := by
  induction l with
  | nil => intro a ha; exact ha
  | cons t rest ih =>
    intro a ha
    rw [List.foldl_cons]
    apply ih
    unfold applyTxToken
    by_cases hg : t.symbol = "" ∨ t.volumeUsd = 0
    · rw [if_pos hg]
      exact ha
    · rw [if_neg hg]
      exact ⟨ha.signups, ha.kyc, ha.firstRev, ha.daily, ha.feeCat, ha.feeCatDaily, ha.volCat,
        ha.volCatDaily, NK_bumpTokenVolume _ _ ha.tokVol,
        NK2_bumpTokenVolumeDaily _ _ _ ha.tokVolDaily,
        NK3_bumpTokenCategoryDaily _ _ _ _ ha.tokCatDaily, ha.swap, ha.swapDaily,
        ha.users, ha.usersKey⟩

theorem applyTxSwap_shape (dateKey : String) (sf : Option SwapFlowSpec) (a : ReferralIndex) :
    ∃ s1 s2, applyTxSwap dateKey sf a
      = { a with
          swapFlowByPair := s1
          swapFlowByPairDaily := s2 } := by
  cases sf with
  | none => exact ⟨a.swapFlowByPair, a.swapFlowByPairDaily, rfl⟩
  | some v =>
    simp only [applyTxSwap]
    by_cases hg : v.fromSymbol ≠ "" ∧ v.toSymbol ≠ "" ∧ v.volumeUsd > 0
    · rw [if_pos hg]
      exact ⟨_, _, rfl⟩
    · rw [if_neg hg]
      exact ⟨a.swapFlowByPair, a.swapFlowByPairDaily, rfl⟩

theorem applyTxSwap_WF (dateKey : String) (sf : Option SwapFlowSpec) {a : ReferralIndex}
    (ha : WFAgg a) : WFAgg (applyTxSwap dateKey sf a) := by
  cases sf with
  | none => exact ha
  | some v =>
    simp only [applyTxSwap]
    by_cases hg : v.fromSymbol ≠ "" ∧ v.toSymbol ≠ "" ∧ v.volumeUsd > 0
    · rw [if_pos hg]
      exact ⟨ha.signups, ha.kyc, ha.firstRev, ha.daily, ha.feeCat, ha.feeCatDaily, ha.volCat,
        ha.volCatDaily, ha.tokVol, ha.tokVolDaily, ha.tokCatDaily,
        NK_bumpSwapFlow _ _ ha.swap, NK2_bumpSwapFlowDaily _ _ _ ha.swapDaily,
        ha.users, ha.usersKey⟩
    · rw [if_neg hg]
      exact ha

/-- `applyTxAgg` only rewrites the bucket fields listed here; in particular
`code`, `signupsByDate`, `kycByDate` and `topRevenueTxs` are untouched, the
running totals grow by the transaction amounts, and `revenueTxCount` by one. -/
theorem applyTxAgg_shape (agg : ReferralIndex) (tx : ParsedRevenueTx)
    (dateKey category : String) (isFirst : Bool) (w : String) (u : UserAgg) :
    ∃ t1 t2 t3 s1 s2, applyTxAgg agg tx dateKey category isFirst w u
      = { agg with
          users := updatePresent agg.users w u
          firstRevenueTxByDate :=
            if isFirst then incrementMap agg.firstRevenueTxByDate dateKey
            else agg.firstRevenueTxByDate
          daily := bumpDaily agg.daily dateKey tx.feeUsd tx.volumeUsd
          feeByCategory := bumpFeeCategory agg.feeByCategory category tx.feeUsd
          feeByCategoryDaily := bumpFeeCategoryDaily agg.feeByCategoryDaily category dateKey tx.feeUsd
          volumeByCategory := bumpVolumeCategory agg.volumeByCategory category tx.volumeUsd
          volumeByCategoryDaily :=
            bumpVolumeCategoryDaily agg.volumeByCategoryDaily category dateKey tx.volumeUsd
          tokenVolumeBySymbol := t1
          tokenVolumeBySymbolDaily := t2
          tokenCategoryBySymbolDaily := t3
          swapFlowByPair := s1
          swapFlowByPairDaily := s2
          feeUsdTotal := agg.feeUsdTotal + tx.feeUsd
          volumeUsdTotal := agg.volumeUsdTotal + tx.volumeUsd
          revenueTxCount := agg.revenueTxCount + 1 } := by
  simp only [applyTxAgg]
  obtain ⟨t1, t2, t3, heq⟩ := tokensFold_shape dateKey category (tx.tokens.getD []) _
  rw [heq]
  obtain ⟨s1, s2, heq2⟩ := applyTxSwap_shape dateKey tx.swapFlow _
  rw [heq2]
  exact ⟨t1, t2, t3, s1, s2, rfl⟩

theorem WFAgg_applyTxAgg {agg : ReferralIndex} (tx : ParsedRevenueTx)
    (dateKey category : String) (isFirst : Bool) {w : String} {u : UserAgg}
    (h : WFAgg agg) (hw : u.wallet = w) :
    WFAgg (applyTxAgg agg tx dateKey category isFirst w u) := by
  simp only [applyTxAgg]
  apply applyTxSwap_WF
  apply tokensFold_WF
  refine ⟨h.signups, h.kyc, ?_, NK_bumpDaily _ _ _ h.daily, NK_bumpFeeCategory _ _ h.feeCat,
    NK2_bumpFeeCategoryDaily _ _ _ h.feeCatDaily, NK_bumpVolumeCategory _ _ h.volCat,
    NK2_bumpVolumeCategoryDaily _ _ _ h.volCatDaily, h.tokVol, h.tokVolDaily, h.tokCatDaily,
    h.swap, h.swapDaily, NK_updatePresent _ _ h.users,
    forall_mem_updatePresent (fun p : String × UserAgg => p.2.wallet = p.1) h.usersKey hw⟩
  by_cases hf : isFirst = true <;> simp [hf]
  · exact NK_incrementMap _ h.firstRev
  · exact h.firstRev

/-- `WFAgg` ignores `topRevenueTxs`. -/
theorem WFAgg_setTop {agg : ReferralIndex} (l : List RevenueTxLite) (h : WFAgg agg) :
    WFAgg { agg with topRevenueTxs := l } :=
  ⟨h.signups, h.kyc, h.firstRev, h.daily, h.feeCat, h.feeCatDaily, h.volCat, h.volCatDaily,
   h.tokVol, h.tokVolDaily, h.tokCatDaily, h.swap, h.swapDaily, h.users, h.usersKey⟩

theorem sumDailyFee_bump (m : SMap DailyAgg) (d : String) (fee vol : ℚ) :
    sumDailyFee (bumpDaily m d fee vol) = sumDailyFee m + fee := by
  simp only [bumpDaily, sumDailyFee]
  cases hg : mget m d with
  | none =>
    have hh : mhas m d = false := by rw [mhas_eq_isSome_mget, hg]; rfl
    rw [sum_mset_new (fun x : DailyAgg => x.feeUsd) _ hh]
    simp
  | some o =>
    simp only [Option.getD_some]
    have h2 := sum_mset_present (fun x : DailyAgg => x.feeUsd)
      ({ o with
         feeUsd := o.feeUsd + fee
         volumeUsd := o.volumeUsd + vol
         revenueTxCount := o.revenueTxCount + 1 }) hg
    simp only [] at h2
    linarith

theorem sumCatFee_bump (m : SMap FeeCategoryAgg) (c : String) (fee : ℚ) :
    sumCatFee (bumpFeeCategory m c fee) = sumCatFee m + fee := by
  simp only [bumpFeeCategory, sumCatFee]
  cases hg : mget m c with
  | none =>
    have hh : mhas m c = false := by rw [mhas_eq_isSome_mget, hg]; rfl
    rw [sum_mset_new (fun x : FeeCategoryAgg => x.feeUsd) _ hh]
    simp
  | some o =>
    simp only [Option.getD_some]
    have h2 := sum_mset_present (fun x : FeeCategoryAgg => x.feeUsd)
      ({ feeUsd := o.feeUsd + fee, revenueTxCount := o.revenueTxCount + 1 } : FeeCategoryAgg) hg
    simp only [] at h2
    linarith

theorem BucketSums_applyTxAgg {agg : ReferralIndex} (tx : ParsedRevenueTx)
    (dateKey category : String) (isFirst : Bool) (w : String) (u : UserAgg)
    (h : BucketSums agg) :
    BucketSums (applyTxAgg agg tx dateKey category isFirst w u) := by
  obtain ⟨t1, t2, t3, s1, s2, heq⟩ := applyTxAgg_shape agg tx dateKey category isFirst w u
  rw [heq]
  constructor
  · show agg.feeUsdTotal + tx.feeUsd = sumDailyFee (bumpDaily agg.daily dateKey tx.feeUsd tx.volumeUsd)
    rw [sumDailyFee_bump, ← h.1]
  · show agg.feeUsdTotal + tx.feeUsd = sumCatFee (bumpFeeCategory agg.feeByCategory category tx.feeUsd)
    rw [sumCatFee_bump, ← h.2]

/-! ## The invariant across the Ingestion API -/

theorem getReferral_eq (ix : AnalyticsIndex) (code : String) :
    getReferral ix code =
      ((mget ix.referrals (trimCode code)).getD (createReferralIndex (trimCode code)),
       { ix with
         referrals :=
           mset ix.referrals (trimCode code)
             ((mget ix.referrals (trimCode code)).getD (createReferralIndex (trimCode code))) }) := by
  unfold getReferral
  cases hg : mget ix.referrals (trimCode code) with
  | some a =>
    simp only [hg, Option.getD_some]
    rw [mset_self_of_mget hg]
  | none => simp [hg]

theorem applyTxUser_wallet (u : UserAgg) (tx : ParsedRevenueTx) :
    (applyTxUser u tx).1.wallet = u.wallet := by
  simp only [applyTxUser]
  repeat' split
  all_goals rfl

theorem applyTxAgg_code (agg : ReferralIndex) (tx : ParsedRevenueTx)
    (dateKey category : String) (isFirst : Bool) (w : String) (u : UserAgg) :
    (applyTxAgg agg tx dateKey category isFirst w u).code = agg.code := by
  obtain ⟨t1, t2, t3, s1, s2, heq⟩ := applyTxAgg_shape agg tx dateKey category isFirst w u
  rw [heq]

theorem applyTxAgg_topRevenueTxs (agg : ReferralIndex) (tx : ParsedRevenueTx)
    (dateKey category : String) (isFirst : Bool) (w : String) (u : UserAgg) :
    (applyTxAgg agg tx dateKey category isFirst w u).topRevenueTxs = agg.topRevenueTxs := by
  obtain ⟨t1, t2, t3, s1, s2, heq⟩ := applyTxAgg_shape agg tx dateKey category isFirst w u
  rw [heq]

theorem applyTxAgg_revenueTxCount (agg : ReferralIndex) (tx : ParsedRevenueTx)
    (dateKey category : String) (isFirst : Bool) (w : String) (u : UserAgg) :
    (applyTxAgg agg tx dateKey category isFirst w u).revenueTxCount = agg.revenueTxCount + 1 := by
  obtain ⟨t1, t2, t3, s1, s2, heq⟩ := applyTxAgg_shape agg tx dateKey category isFirst w u
  rw [heq]

theorem applyTxAgg_users (agg : ReferralIndex) (tx : ParsedRevenueTx)
    (dateKey category : String) (isFirst : Bool) (w : String) (u : UserAgg) :
    (applyTxAgg agg tx dateKey category isFirst w u).users = updatePresent agg.users w u := by
  obtain ⟨t1, t2, t3, s1, s2, heq⟩ := applyTxAgg_shape agg tx dateKey category isFirst w u
  rw [heq]

theorem mget_updatePresent_isSome {α : Type} (m : SMap α) (k k' : String) (v : α) :
    (mget (updatePresent m k v) k').isSome = (mget m k').isSome := by
  by_cases h : k = k'
  · subst h
    rw [mget_updatePresent_self]
    cases mget m k <;> rfl
  · rw [mget_updatePresent_ne m v h]

theorem Inv_create (options : AnalyticsOptions) : Inv (createAnalyticsIndex options) := by
  refine ⟨?_, ?_, ?_, ?_, ?_, ?_, ?_, ?_, ?_⟩
  · exact WFAgg_create "all"
  · exact NK_nil
  · simp [createAnalyticsIndex]
  · simp [createAnalyticsIndex]
  · simp [createAnalyticsIndex]
  · intro w c hget
    simp [createAnalyticsIndex] at hget
  · simp [createAnalyticsIndex, sumRevCount]
  · exact BucketSums_create "all"
  · simp [createAnalyticsIndex]

theorem Inv_addReferralCodeMeta {ix : AnalyticsIndex} (meta : ReferralCodeMeta) (h : Inv ix) :
    Inv (addReferralCodeMeta ix meta) := by
  unfold addReferralCodeMeta
  by_cases hc : strTrim meta.code = ""
  · rw [if_pos hc]
    exact h
  · rw [if_neg hc]
    exact ⟨h.wfGlobal, h.refsNK, h.refs, h.refsCode, h.ubwKey, h.custLink, h.attrib,
      h.bucketsGlobal, h.buckets⟩

theorem Inv_addOwnerUsageDaily {ix : AnalyticsIndex} (ownerId dateKey : String)
    (feeUsd volumeUsd : ℚ) (h : Inv ix) :
    Inv (addOwnerUsageDaily ix ownerId dateKey feeUsd volumeUsd) := by
  unfold addOwnerUsageDaily
  by_cases hc : ownerId = ""
  · rw [if_pos hc]
    exact h
  · rw [if_neg hc]
    exact ⟨h.wfGlobal, h.refsNK, h.refs, h.refsCode, h.ubwKey, h.custLink, h.attrib,
      h.bucketsGlobal, h.buckets⟩

theorem sumRevCount_mset_eq {refs : SMap ReferralIndex} {t : String} {v : ReferralIndex}
    (hcnt : v.revenueTxCount
      = ((mget refs t).getD (createReferralIndex t)).revenueTxCount) :
    sumRevCount (mset refs t v) = sumRevCount refs := by
  cases hg : mget refs t with
  | none =>
    have hh : mhas refs t = false := by rw [mhas_eq_isSome_mget, hg]; rfl
    unfold sumRevCount
    rw [sum_mset_new (fun x : ReferralIndex => x.revenueTxCount) _ hh]
    rw [hg] at hcnt
    simp [createReferralIndex] at hcnt
    simp [hcnt]
  | some a =>
    unfold sumRevCount
    have h2 := sum_mset_present (fun x : ReferralIndex => x.revenueTxCount) v hg
    rw [hg] at hcnt
    simp at hcnt h2
    omega

theorem sumRevCount_mset_update (refs : SMap ReferralIndex) (t : String) (U : SMap UserAgg)
    (S K : SMap Nat) :
    sumRevCount (mset refs t
      { (mget refs t).getD (createReferralIndex t) with
        users := U
        signupsByDate := S
        kycByDate := K }) = sumRevCount refs :=
  sumRevCount_mset_eq rfl

theorem sumRevCount_mset_succ {refs : SMap ReferralIndex} {t : String} {v a : ReferralIndex}
    (hg : mget refs t = some a) (hcnt : v.revenueTxCount = a.revenueTxCount + 1) :
    sumRevCount (mset refs t v) = sumRevCount refs + 1 := by
  unfold sumRevCount
  have h2 := sum_mset_present (fun x : ReferralIndex => x.revenueTxCount) v hg
  simp at h2
  omega

theorem Inv_addCustomer {ix : AnalyticsIndex} (c : Customer) (h : Inv ix) :
    Inv (addCustomer ix c) := by
  have hagg :
      WFAgg ((mget ix.referrals (trimCode c.referral)).getD
          (createReferralIndex (trimCode c.referral))) ∧
      BucketSums ((mget ix.referrals (trimCode c.referral)).getD
          (createReferralIndex (trimCode c.referral))) ∧
      ((mget ix.referrals (trimCode c.referral)).getD
          (createReferralIndex (trimCode c.referral))).code = trimCode c.referral := by
    cases hg : mget ix.referrals (trimCode c.referral) with
    | none => exact ⟨WFAgg_create _, BucketSums_create _, rfl⟩
    | some a =>
      exact ⟨h.refs _ (mget_mem hg), h.buckets _ (mget_mem hg), h.refsCode _ (mget_mem hg)⟩
  obtain ⟨hA, hB, hC⟩ := hagg
  unfold addCustomer
  rw [getReferral_eq]
  simp only [mset_mset_same]
  refine ⟨?_, ?_, ?_, ?_, ?_, ?_, ?_, ?_, ?_⟩
  · exact WFAgg_customerUpdate _ _ _ h.wfGlobal rfl
  · exact NK_mset _ _ h.refsNK
  · exact forall_mem_mset (fun p : String × ReferralIndex => WFAgg p.2) h.refs
      (WFAgg_customerUpdate _ _ _ hA rfl)
  · exact forall_mem_mset (fun p : String × ReferralIndex => p.2.code = p.1) h.refsCode hC
  · exact forall_mem_mset (fun p : String × UserAgg => p.2.wallet = p.1) h.ubwKey rfl
  · intro w c' hget
    by_cases hw : c.smartWallet = w
    · subst hw
      rw [mget_mset_self] at hget
      obtain rfl : c = c' := by simpa using hget
      refine ⟨_, mget_mset_self _ _ _, ?_⟩
      simp
    · rw [mget_mset_ne _ _ hw] at hget
      obtain ⟨agg', hagg', hus'⟩ := h.custLink w c' hget
      by_cases ht : trimCode c.referral = trimCode c'.referral
      · rw [← ht] at hagg'
        rw [← ht]
        refine ⟨_, mget_mset_self _ _ _, ?_⟩
        show (mget (mset _ c.smartWallet _) w).isSome
        rw [mget_mset_ne _ _ hw]
        have : (mget ix.referrals (trimCode c.referral)).getD
            (createReferralIndex (trimCode c.referral)) = agg' := by
          rw [hagg']
          rfl
        rw [this]
        exact hus'
      · rw [mget_mset_ne _ _ ht]
        exact ⟨agg', hagg', hus'⟩
  · show ix.totals.revenueTxCount = sumRevCount (mset ix.referrals _ _) + _
    rw [sumRevCount_mset_update]
    exact h.attrib
  · exact h.bucketsGlobal
  · exact forall_mem_mset (fun p : String × ReferralIndex => BucketSums p.2) h.buckets hB

theorem sumRevCount_mset_txUpdate {refs : SMap ReferralIndex} {t : String} {a : ReferralIndex}
    (hg : mget refs t = some a) (tx : ParsedRevenueTx) (dateKey category : String)
    (isFirst : Bool) (w : String) (u : UserAgg) (L : List RevenueTxLite) :
    sumRevCount (mset refs t
      { applyTxAgg a tx dateKey category isFirst w u with topRevenueTxs := L })
      = sumRevCount refs + 1 :=
  sumRevCount_mset_succ hg (by
    show (applyTxAgg a tx dateKey category isFirst w u).revenueTxCount = a.revenueTxCount + 1
    exact applyTxAgg_revenueTxCount a tx dateKey category isFirst w u)

theorem Inv_addRevenueTransaction {ix : AnalyticsIndex} (tx : ParsedRevenueTx) (h : Inv ix) :
    Inv (addRevenueTransaction ix tx) := by
  cases hc : mget ix.customersByWallet tx.wallet with
  | none =>
    simp only [addRevenueTransaction, hc]
    refine ⟨h.wfGlobal, h.refsNK, h.refs, h.refsCode, h.ubwKey, h.custLink, ?_, h.bucketsGlobal,
      h.buckets⟩
    show ix.totals.revenueTxCount + 1
      = sumRevCount ix.referrals + (ix.totals.unattributedTxCount + 1)
    have := h.attrib
    omega
  | some customer =>
    obtain ⟨agg, hagg, husers⟩ := h.custLink tx.wallet customer hc
    obtain ⟨u0, hu0⟩ := Option.isSome_iff_exists.mp husers
    have hmem := mget_mem hagg
    have hu0mem := mget_mem hu0
    have hA : WFAgg agg := h.refs _ hmem
    have hB : BucketSums agg := h.buckets _ hmem
    have hwall : u0.wallet = tx.wallet := hA.usersKey _ hu0mem
    have hkey : (applyTxUser u0 tx).1.wallet = tx.wallet := by
      rw [applyTxUser_wallet]; exact hwall
    simp only [addRevenueTransaction, hc, getReferral_eq, hagg, Option.getD_some, hu0,
      Option.orElse, mset_mset_same]
    refine ⟨?_, ?_, ?_, ?_, ?_, ?_, ?_, ?_, ?_⟩
    · exact WFAgg_applyTxAgg _ _ _ _ h.wfGlobal hkey
    · exact NK_mset _ _ h.refsNK
    · exact forall_mem_mset (fun p : String × ReferralIndex => WFAgg p.2) h.refs
        (WFAgg_setTop _ (WFAgg_applyTxAgg _ _ _ _ hA hkey))
    · refine forall_mem_mset (fun p : String × ReferralIndex => p.2.code = p.1) h.refsCode ?_
      show ({ applyTxAgg agg tx _ _ _ tx.wallet _ with
        topRevenueTxs := _ } : ReferralIndex).code = _
      rw [show ({ applyTxAgg agg tx _ _ _ tx.wallet _ with
        topRevenueTxs := _ } : ReferralIndex).code
        = (applyTxAgg agg tx _ _ _ tx.wallet _).code from rfl, applyTxAgg_code]
      exact h.refsCode _ hmem
    · exact forall_mem_updatePresent (fun p : String × UserAgg => p.2.wallet = p.1)
        h.ubwKey hkey
    · intro w' c' hget
      obtain ⟨agg', hagg', hus'⟩ := h.custLink w' c' hget
      by_cases ht : trimCode customer.referral = trimCode c'.referral
      · rw [← ht] at hagg'
        have haa : agg' = agg := by
          rw [hagg] at hagg'
          exact (Option.some_inj.mp hagg').symm
        subst haa
        rw [← ht]
        refine ⟨_, mget_mset_self _ _ _, ?_⟩
        show (mget ({ applyTxAgg agg' tx _ _ _ tx.wallet _ with
          topRevenueTxs := _ } : ReferralIndex).users w').isSome
        rw [show ({ applyTxAgg agg' tx _ _ _ tx.wallet _ with
          topRevenueTxs := _ } : ReferralIndex).users
          = (applyTxAgg agg' tx _ _ _ tx.wallet _).users from rfl, applyTxAgg_users,
          mget_updatePresent_isSome]
        exact hus'
      · rw [mget_mset_ne _ _ ht]
        exact ⟨agg', hagg', hus'⟩
    · show ix.totals.revenueTxCount + 1
        = sumRevCount (mset ix.referrals _ _) + ix.totals.unattributedTxCount
      rw [sumRevCount_mset_txUpdate hagg]
      have := h.attrib
      omega
    · exact BucketSums_applyTxAgg _ _ _ _ _ _ h.bucketsGlobal
    · refine forall_mem_mset (fun p : String × ReferralIndex => BucketSums p.2) h.buckets ?_
      exact BucketSums_applyTxAgg _ _ _ _ _ _ hB

/-- The invariant holds for every index built by a sequence of ingestion calls. -/
theorem Inv_applyOp {ix : AnalyticsIndex} (op : IngestOp) (h : Inv ix) : Inv (applyOp ix op) := by
  cases op with
  | customer c => exact Inv_addCustomer c h
  | codeMeta m => exact Inv_addReferralCodeMeta m h
  | revenueTx tx => exact Inv_addRevenueTransaction tx h
  | ownerUsage ownerId dateKey feeUsd volumeUsd =>
    exact Inv_addOwnerUsageDaily ownerId dateKey feeUsd volumeUsd h

theorem Inv_foldl (ops : List IngestOp) :
    ∀ {ix : AnalyticsIndex}, Inv ix → Inv (ops.foldl applyOp ix) := by
  induction ops with
  | nil => intro ix h; exact h
  | cons op rest ih =>
    intro ix h
    rw [List.foldl_cons]
    exact ih (Inv_applyOp op h)

theorem Inv_buildIndex (options : AnalyticsOptions) (ops : List IngestOp) :
    Inv (buildIndex options ops) :=
  Inv_foldl ops (Inv_create options)

/-! ## Snapshot codec round-trip -/

theorem mapFromPairs_self {α : Type} {m : SMap α} (h : NK m) : mapFromPairs m = m := by
  unfold mapFromPairs
  rw [foldMset_eq Prod.fst Prod.snd m [] h (by intro x hx; rfl)]
  simp

theorem mapFromPairs_nested {α : Type} {m : SMap (SMap α)} (h : NK2 m) :
    m.foldl (fun acc e => mset acc e.1 (mapFromPairs e.2)) [] = m := by
  rw [foldMset_eq Prod.fst (fun e => mapFromPairs e.2) m [] h.1 (by intro x hx; rfl)]
  simp only [List.nil_append]
  have : ∀ e ∈ m, (e.1, mapFromPairs e.2) = e := by
    intro e he
    rw [mapFromPairs_self (h.2 e he)]
  rw [List.map_congr_left this]
  simp

theorem mapFromPairs_nested3 {α : Type} {m : SMap (SMap (SMap α))} (h : NK3 m) :
    m.foldl (fun acc e =>
      mset acc e.1 (e.2.foldl (fun inner d => mset inner d.1 (mapFromPairs d.2)) [])) [] = m := by
  rw [foldMset_eq Prod.fst
    (fun e => e.2.foldl (fun inner d => mset inner d.1 (mapFromPairs d.2)) []) m [] h.1
    (by intro x hx; rfl)]
  simp only [List.nil_append]
  have : ∀ e ∈ m,
      (e.1, e.2.foldl (fun inner d => mset inner d.1 (mapFromPairs d.2)) []) = e := by
    intro e he
    rw [mapFromPairs_nested (h.2 e he)]
  rw [List.map_congr_left this]
  simp

theorem users_rebuild {users : SMap UserAgg} (hnk : NK users)
    (hkey : ∀ p ∈ users, p.2.wallet = p.1) :
    (users.map (·.2)).foldl (fun acc u => mset acc u.wallet u) [] = users := by
  have hkeys : ((users.map (·.2)).map (fun u => u.wallet)).Nodup := by
    rw [List.map_map]
    have : ∀ p ∈ users, ((fun u => u.wallet) ∘ (·.2)) p = Prod.fst p := fun p hp => hkey p hp
    rw [List.map_congr_left this]
    exact hnk
  rw [foldMset_eq (fun u => u.wallet) (fun u => u) (users.map (·.2)) [] hkeys
    (by intro x hx; rfl)]
  simp only [List.nil_append, List.map_map]
  have : ∀ p ∈ users, ((fun u => (u.wallet, u)) ∘ (·.2)) p = p := by
    intro p hp
    have := hkey p hp
    obtain ⟨a, b⟩ := p
    simp at this ⊢
    exact this
  rw [List.map_congr_left this]
  simp

theorem deserializeReferral_serializeReferral {agg : ReferralIndex} (h : WFAgg agg) :
    deserializeReferral (serializeReferral agg) = agg := by
  unfold deserializeReferral serializeReferral
  simp only [mapFromPairs_self h.signups, mapFromPairs_self h.kyc, mapFromPairs_self h.firstRev,
    mapFromPairs_self h.daily, mapFromPairs_self h.feeCat, mapFromPairs_self h.volCat,
    mapFromPairs_self h.tokVol, mapFromPairs_self h.swap,
    mapFromPairs_nested h.feeCatDaily, mapFromPairs_nested h.volCatDaily,
    mapFromPairs_nested h.tokVolDaily, mapFromPairs_nested h.swapDaily,
    mapFromPairs_nested3 h.tokCatDaily, users_rebuild h.users h.usersKey]

theorem referrals_rebuild {refs : SMap ReferralIndex} (hnk : NK refs)
    (hwf : ∀ p ∈ refs, WFAgg p.2) (hcode : ∀ p ∈ refs, p.2.code = p.1) :
    (refs.map (fun p => serializeReferral p.2)).foldl
      (fun acc sr => mset acc sr.code (deserializeReferral sr)) [] = refs := by
  have hkeys : (((refs.map (fun p => serializeReferral p.2)).map (fun sr => sr.code))).Nodup := by
    rw [List.map_map]
    have : ∀ p ∈ refs, ((fun sr => sr.code) ∘ (fun p => serializeReferral p.2)) p
        = Prod.fst p := by
      intro p hp
      show (serializeReferral p.2).code = p.1
      rw [show (serializeReferral p.2).code = p.2.code from rfl]
      exact hcode p hp
    rw [List.map_congr_left this]
    exact hnk
  rw [foldMset_eq (fun sr => sr.code) deserializeReferral
    (refs.map (fun p => serializeReferral p.2)) [] hkeys (by intro x hx; rfl)]
  simp only [List.nil_append, List.map_map]
  have : ∀ p ∈ refs,
      ((fun sr => (sr.code, deserializeReferral sr)) ∘ (fun p => serializeReferral p.2)) p
        = p := by
    intro p hp
    show ((serializeReferral p.2).code, deserializeReferral (serializeReferral p.2)) = p
    rw [deserializeReferral_serializeReferral (hwf p hp),
      show (serializeReferral p.2).code = p.2.code from rfl, hcode p hp]
  rw [List.map_congr_left this]
  simp

/-- The round-tripped index agrees with the original on the two components the
Query Engine reads: the global aggregate and the referral-aggregate map. -/
theorem roundtrip_core {ix : AnalyticsIndex} (h : Inv ix) :
    (deserializeIndex (serializeIndex ix)).global = ix.global ∧
    (deserializeIndex (serializeIndex ix)).referrals = ix.referrals := by
  constructor
  · show deserializeReferral (serializeReferral ix.global) = ix.global
    exact deserializeReferral_serializeReferral h.wfGlobal
  · show (ix.referrals.map (fun p => serializeReferral p.2)).foldl
      (fun acc sr => mset acc sr.code (deserializeReferral sr)) [] = ix.referrals
    exact referrals_rebuild h.refsNK h.refs h.refsCode

/-! ## Query congruence: every query reads only `global` and `referrals` -/

theorem resolveReferral_fst_congr {ix2 ix : AnalyticsIndex} (code : String)
    (hg : ix2.global = ix.global) (hr : ix2.referrals = ix.referrals) :
    (resolveReferral ix2 code).1 = (resolveReferral ix code).1 := by
  unfold resolveReferral getReferral
  by_cases hc : code = "all"
  · simp [hc, hg]
  · rw [if_neg hc, if_neg hc, hr]
    cases hm : mget ix.referrals (trimCode code) <;> simp [hm]

theorem getReferralMetrics_fst_congr {ix2 ix : AnalyticsIndex} (code : String)
    (range : DateRange) (h : (resolveReferral ix2 code).1 = (resolveReferral ix code).1) :
    (getReferralMetrics ix2 code range).1 = (getReferralMetrics ix code range).1 := by
  simp only [getReferralMetrics, h]

theorem getDailySeries_fst_congr {ix2 ix : AnalyticsIndex} (code : String)
    (range : DateRange) (h : (resolveReferral ix2 code).1 = (resolveReferral ix code).1) :
    (getDailySeries ix2 code range).1 = (getDailySeries ix code range).1 := by
  simp only [getDailySeries, h]

theorem getFeeCategoryBreakdown_fst_congr {ix2 ix : AnalyticsIndex} (code : String)
    (range : DateRange) (h : (resolveReferral ix2 code).1 = (resolveReferral ix code).1) :
    (getFeeCategoryBreakdown ix2 code range).1 = (getFeeCategoryBreakdown ix code range).1 := by
  simp only [getFeeCategoryBreakdown, h]

theorem getVolumeCategoryBreakdown_fst_congr {ix2 ix : AnalyticsIndex} (code : String)
    (range : DateRange) (h : (resolveReferral ix2 code).1 = (resolveReferral ix code).1) :
    (getVolumeCategoryBreakdown ix2 code range).1
      = (getVolumeCategoryBreakdown ix code range).1 := by
  simp only [getVolumeCategoryBreakdown, h]

theorem getVolumeCategoryDailySeries_fst_congr {ix2 ix : AnalyticsIndex} (code : String)
    (range : DateRange) (h : (resolveReferral ix2 code).1 = (resolveReferral ix code).1) :
    (getVolumeCategoryDailySeries ix2 code range).1
      = (getVolumeCategoryDailySeries ix code range).1 := by
  simp only [getVolumeCategoryDailySeries, h]

theorem getTokenVolumeBreakdown_fst_congr {ix2 ix : AnalyticsIndex} (code : String)
    (range : DateRange) (h : (resolveReferral ix2 code).1 = (resolveReferral ix code).1) :
    (getTokenVolumeBreakdown ix2 code range).1 = (getTokenVolumeBreakdown ix code range).1 := by
  simp only [getTokenVolumeBreakdown, h]

theorem getTopTokenByVolume_fst_congr {ix2 ix : AnalyticsIndex} (code : String)
    (range : DateRange) (h : (resolveReferral ix2 code).1 = (resolveReferral ix code).1) :
    (getTopTokenByVolume ix2 code range).1 = (getTopTokenByVolume ix code range).1 := by
  simp only [getTopTokenByVolume, getTokenVolumeBreakdown, h]

theorem getTopTokenTransactions_fst_congr {ix2 ix : AnalyticsIndex} (code : String)
    (range : DateRange) (limit : Nat)
    (h : (resolveReferral ix2 code).1 = (resolveReferral ix code).1) :
    (getTopTokenTransactions ix2 code range limit).1
      = (getTopTokenTransactions ix code range limit).1 := by
  simp only [getTopTokenTransactions, h]

theorem getSwapFlowLinks_fst_congr {ix2 ix : AnalyticsIndex} (code : String)
    (range : DateRange) (limit : Nat)
    (h : (resolveReferral ix2 code).1 = (resolveReferral ix code).1) :
    (getSwapFlowLinks ix2 code range limit).1 = (getSwapFlowLinks ix code range limit).1 := by
  simp only [getSwapFlowLinks, h]

theorem getSwapFlowSankeyData_fst_congr {ix2 ix : AnalyticsIndex} (code : String)
    (range : DateRange) (limit : Nat)
    (h : (resolveReferral ix2 code).1 = (resolveReferral ix code).1) :
    (getSwapFlowSankeyData ix2 code range limit).1
      = (getSwapFlowSankeyData ix code range limit).1 := by
  simp only [getSwapFlowSankeyData, getSwapFlowLinks_fst_congr code range limit h]

/-! ## Claim theorems: C1, C2, C3 -/

/-- C1: For every `AnalyticsIndex` built by any sequence of `addCustomer` /
`addReferralCodeMeta` / `addRevenueTransaction` / `addOwnerUsageDaily` calls on
a fresh index, `deserializeIndex (serializeIndex ix)` is observationally equal
to `ix`: every Query Engine query (`getReferralMetrics`, `getDailySeries`, the
category/token/swap breakdown queries, `getSwapFlowSankeyData`,
`getReferralList`, `getRangeBounds`) returns the same result on the
round-tripped index as on `ix`, for every code and date range. -/
theorem C1_roundtrip_observational (options : AnalyticsOptions) (ops : List IngestOp)
    (code : String) (range : DateRange) (limit : Nat) :
    (getReferralMetrics (deserializeIndex (serializeIndex (buildIndex options ops))) code
        range).1
      = (getReferralMetrics (buildIndex options ops) code range).1 ∧
    (getDailySeries (deserializeIndex (serializeIndex (buildIndex options ops))) code range).1
      = (getDailySeries (buildIndex options ops) code range).1 ∧
    (getFeeCategoryBreakdown (deserializeIndex (serializeIndex (buildIndex options ops))) code
        range).1
      = (getFeeCategoryBreakdown (buildIndex options ops) code range).1 ∧
    (getVolumeCategoryBreakdown (deserializeIndex (serializeIndex (buildIndex options ops)))
        code range).1
      = (getVolumeCategoryBreakdown (buildIndex options ops) code range).1 ∧
    (getVolumeCategoryDailySeries (deserializeIndex (serializeIndex (buildIndex options ops)))
        code range).1
      = (getVolumeCategoryDailySeries (buildIndex options ops) code range).1 ∧
    (getTokenVolumeBreakdown (deserializeIndex (serializeIndex (buildIndex options ops))) code
        range).1
      = (getTokenVolumeBreakdown (buildIndex options ops) code range).1 ∧
    (getTopTokenByVolume (deserializeIndex (serializeIndex (buildIndex options ops))) code
        range).1
      = (getTopTokenByVolume (buildIndex options ops) code range).1 ∧
    (getTopTokenTransactions (deserializeIndex (serializeIndex (buildIndex options ops))) code
        range limit).1
      = (getTopTokenTransactions (buildIndex options ops) code range limit).1 ∧
    (getSwapFlowLinks (deserializeIndex (serializeIndex (buildIndex options ops))) code range
        limit).1
      = (getSwapFlowLinks (buildIndex options ops) code range limit).1 ∧
    (getSwapFlowSankeyData (deserializeIndex (serializeIndex (buildIndex options ops))) code
        range limit).1
      = (getSwapFlowSankeyData (buildIndex options ops) code range limit).1 ∧
    getReferralList (deserializeIndex (serializeIndex (buildIndex options ops)))
      = getReferralList (buildIndex options ops) ∧
    getRangeBounds (deserializeIndex (serializeIndex (buildIndex options ops)))
      = getRangeBounds (buildIndex options ops) := by
  obtain ⟨hg, hr⟩ := roundtrip_core (Inv_buildIndex options ops)
  have h := resolveReferral_fst_congr code hg hr
  refine ⟨getReferralMetrics_fst_congr code range h, getDailySeries_fst_congr code range h,
    getFeeCategoryBreakdown_fst_congr code range h,
    getVolumeCategoryBreakdown_fst_congr code range h,
    getVolumeCategoryDailySeries_fst_congr code range h,
    getTokenVolumeBreakdown_fst_congr code range h, getTopTokenByVolume_fst_congr code range h,
    getTopTokenTransactions_fst_congr code range limit h,
    getSwapFlowLinks_fst_congr code range limit h,
    getSwapFlowSankeyData_fst_congr code range limit h, ?_, ?_⟩
  · unfold getReferralList
    rw [show mkeys (deserializeIndex (serializeIndex (buildIndex options ops))).referrals
      = mkeys (buildIndex options ops).referrals from congrArg mkeys hr]
  · unfold getRangeBounds
    rw [hg]

/-- C2: After any sequence of ingestion calls on a fresh `AnalyticsIndex`,
`totals.revenueTxCount` equals the sum over all `ReferralAggregate`s
(excluding the global one) of their `revenueTxCount` fields, plus
`totals.unattributedTxCount`. -/
theorem C2_attribution_conservation (options : AnalyticsOptions) (ops : List IngestOp) :
    (buildIndex options ops).totals.revenueTxCount
      = sumRevCount (buildIndex options ops).referrals
        + (buildIndex options ops).totals.unattributedTxCount :=
  (Inv_buildIndex options ops).attrib

/-- C3: After any sequence of ingestion calls on a fresh `AnalyticsIndex`
(`addRevenueTransaction` calls included), every `ReferralAggregate` — the
global one and the aggregate of every code — satisfies
`feeUsdTotal = Σ daily.feeUsd = Σ feeByCategory.feeUsd`. -/
theorem C3_bucket_consistency (options : AnalyticsOptions) (ops : List IngestOp)
    (code : String) :
    BucketSums (buildIndex options ops).global ∧
    ((mget (buildIndex options ops).referrals code).elim True BucketSums) := by
  refine ⟨(Inv_buildIndex options ops).bucketsGlobal, ?_⟩
  cases hg : mget (buildIndex options ops).referrals code with
  | none => trivial
  | some agg => exact (Inv_buildIndex options ops).buckets _ (mget_mem hg)

/-! ## Claims C4 and C5: query footprint on the index -/

theorem resolveReferral_snd_of_known {ix : AnalyticsIndex} {code : String}
    (h : code = "all" ∨ mhas ix.referrals (trimCode code) = true) :
    (resolveReferral ix code).2 = ix := by
  unfold resolveReferral getReferral
  by_cases hc : code = "all"
  · simp [hc]
  · rcases h with h | h
    · exact absurd h hc
    · rw [mhas_eq_isSome_mget] at h
      obtain ⟨a, ha⟩ := Option.isSome_iff_exists.mp h
      simp [hc, ha]

/-- C4 counterexample: on a fresh index, `getReferralMetrics` queried with a
code that has no aggregate yet *mutates* the index — `getReferral` inserts an
empty aggregate for that code into the `referrals` map — so the claim "every
query leaves the index unchanged, including for a code with no aggregate yet"
is false. -/
theorem C4_counterexample :
    (getReferralMetrics exFresh "X" exRange).2 ≠ exFresh := by
  decide

/-- C4 (amended): every per-code Query Engine function leaves the index
unchanged whenever the code is `"all"` or the (trimmed) code already has a
`ReferralAggregate`; with an unknown code, the single side effect is the
insertion of a fresh empty aggregate for it (see `C4_counterexample`). -/
theorem C4_queries_pure_on_known_codes (ix : AnalyticsIndex) (code : String)
    (range : DateRange) (limit : Nat)
    (h : code = "all" ∨ mhas ix.referrals (trimCode code) = true) :
    (getReferralMetrics ix code range).2 = ix ∧
    (getDailySeries ix code range).2 = ix ∧
    (getFeeCategoryBreakdown ix code range).2 = ix ∧
    (getVolumeCategoryBreakdown ix code range).2 = ix ∧
    (getTokenVolumeBreakdown ix code range).2 = ix ∧
    (getTopTokenTransactions ix code range limit).2 = ix ∧
    (getSwapFlowSankeyData ix code range limit).2 = ix := by
  have h2 := resolveReferral_snd_of_known h
  exact ⟨h2, h2, h2, h2, h2, h2, h2⟩

theorem C4_queries_pure_witness :
    (getReferralMetrics exIxX "X" exRange).2 = exIxX ∧
    (getDailySeries exIxX "X" exRange).2 = exIxX ∧
    (getFeeCategoryBreakdown exIxX "X" exRange).2 = exIxX ∧
    (getVolumeCategoryBreakdown exIxX "X" exRange).2 = exIxX ∧
    (getTokenVolumeBreakdown exIxX "X" exRange).2 = exIxX ∧
    (getTopTokenTransactions exIxX "X" exRange 10).2 = exIxX ∧
    (getSwapFlowSankeyData exIxX "X" exRange 24).2 = exIxX :=
  ⟨(C4_queries_pure_on_known_codes exIxX "X" exRange 10 (Or.inr (by decide))).1,
   (C4_queries_pure_on_known_codes exIxX "X" exRange 10 (Or.inr (by decide))).2.1,
   (C4_queries_pure_on_known_codes exIxX "X" exRange 10 (Or.inr (by decide))).2.2.1,
   (C4_queries_pure_on_known_codes exIxX "X" exRange 10 (Or.inr (by decide))).2.2.2.1,
   (C4_queries_pure_on_known_codes exIxX "X" exRange 10 (Or.inr (by decide))).2.2.2.2.1,
   (C4_queries_pure_on_known_codes exIxX "X" exRange 10 (Or.inr (by decide))).2.2.2.2.2.1,
   (C4_queries_pure_on_known_codes exIxX "X" exRange 24 (Or.inr (by decide))).2.2.2.2.2.2⟩

/-- C5: a transaction whose wallet is not registered in `customersByWallet`
only increments `totals.revenueTxCount` and `totals.unattributedTxCount`;
every other component of the index is untouched, and consequently every
referral's queried metrics are unchanged. -/
theorem C5_unattributed_frame (ix : AnalyticsIndex) (tx : ParsedRevenueTx)
    (h : mget ix.customersByWallet tx.wallet = none) :
    addRevenueTransaction ix tx
      = { ix with
          totals :=
            { ix.totals with
              revenueTxCount := ix.totals.revenueTxCount + 1
              unattributedTxCount := ix.totals.unattributedTxCount + 1 } } ∧
    ∀ code range, (getReferralMetrics (addRevenueTransaction ix tx) code range).1
      = (getReferralMetrics ix code range).1 := by
  have heq : addRevenueTransaction ix tx
      = { ix with
          totals :=
            { ix.totals with
              revenueTxCount := ix.totals.revenueTxCount + 1
              unattributedTxCount := ix.totals.unattributedTxCount + 1 } } := by
    simp [addRevenueTransaction, h]
  refine ⟨heq, ?_⟩
  intro code range
  rw [heq]
  exact getReferralMetrics_fst_congr code range (resolveReferral_fst_congr code rfl rfl)

theorem C5_unattributed_frame_witness :
    addRevenueTransaction exIxX exTxUnattributed
      = { exIxX with
          totals :=
            { exIxX.totals with
              revenueTxCount := exIxX.totals.revenueTxCount + 1
              unattributedTxCount := exIxX.totals.unattributedTxCount + 1 } } ∧
    ∀ code range,
      (getReferralMetrics (addRevenueTransaction exIxX exTxUnattributed) code range).1
        = (getReferralMetrics exIxX code range).1 :=
  C5_unattributed_frame exIxX exTxUnattributed (by decide)

/-! ## Claim C7: the propagation traversal terminates, cycles included -/

theorem children_code_mem_propUniv {map : PropagationMap} {code : String}
    {l : List PropagationChild} (hg : mget map code = some l) :
    ∀ ch ∈ l, ch.code ∈ propUniv map := by
  intro ch hch
  unfold propUniv
  rw [List.mem_toFinset, List.mem_append]
  right
  rw [List.mem_map]
  refine ⟨ch, ?_, rfl⟩
  rw [List.mem_flatten]
  exact ⟨l, List.mem_map.mpr ⟨(code, l), mget_mem hg, rfl⟩, hch⟩

theorem bdsChildren_isSome (map : PropagationMap) (fuel : Nat)
    (ih : ∀ (code : String) (cache : SMap DescendantStats) (stack : List String),
      ((insert code (propUniv map)).filter (fun x => ¬ x ∈ stack)).card < fuel →
      (bdsFuel fuel map code cache stack).isSome) :
    ∀ (children : List PropagationChild), (∀ ch ∈ children, ch.code ∈ propUniv map) →
      ∀ (cache : SMap DescendantStats) (stack : List String),
        ((propUniv map).filter (fun x => ¬ x ∈ stack)).card < fuel →
        (bdsChildren (fun c ca st => bdsFuel fuel map c ca st) children cache stack).isSome := by
  intro children
  induction children with
  | nil => intro _ cache stack _; simp [bdsChildren]
  | cons ch rest ihc =>
    intro hmem cache stack hstk
    rw [bdsChildren]
    by_cases hs : ch.code ∈ stack
    · rw [if_pos hs]
      exact ihc (fun c hc => hmem c (List.mem_cons.mpr (Or.inr hc))) cache stack hstk
    · rw [if_neg hs]
      have hvisit : (bdsFuel fuel map ch.code cache stack).isSome := by
        apply ih
        have habs : insert ch.code (propUniv map) = propUniv map :=
          Finset.insert_eq_self.mpr (hmem ch (List.mem_cons.mpr (Or.inl rfl)))
        rw [habs]
        exact hstk
      obtain ⟨p, hp⟩ := Option.isSome_iff_exists.mp hvisit
      obtain ⟨childStats, cache1⟩ := p
      have hrest := ihc (fun c hc => hmem c (List.mem_cons.mpr (Or.inr hc))) cache1 stack hstk
      obtain ⟨q, hq⟩ := Option.isSome_iff_exists.mp hrest
      obtain ⟨total, maxDepth, cache2⟩ := q
      simp [hp, hq]

theorem bdsFuel_isSome (map : PropagationMap) :
    ∀ (fuel : Nat) (code : String) (cache : SMap DescendantStats) (stack : List String),
      ((insert code (propUniv map)).filter (fun x => ¬ x ∈ stack)).card < fuel →
      (bdsFuel fuel map code cache stack).isSome := by
  intro fuel
  induction fuel with
  | zero => intro code cache stack h; omega
  | succ fuel ih =>
    intro code cache stack hlt
    rw [bdsFuel]
    cases hc : mget cache code with
    | some cached => simp
    | none =>
      simp only []
      by_cases hs : code ∈ stack
      · simp [hs]
      · rw [if_neg hs]
        have hstk : ((propUniv map).filter (fun x => ¬ x ∈ (code :: stack))).card < fuel := by
          have hsub : (propUniv map).filter (fun x => ¬ x ∈ (code :: stack))
              ⊂ (insert code (propUniv map)).filter (fun x => ¬ x ∈ stack) := by
            constructor
            · intro x hx
              rw [Finset.mem_filter] at hx ⊢
              rw [List.mem_cons] at hx
              exact ⟨Finset.mem_insert.mpr (Or.inr hx.1), fun hxs => hx.2 (Or.inr hxs)⟩
            · intro hcontr
              have hcode : code ∈ (insert code (propUniv map)).filter
                  (fun x => ¬ x ∈ stack) := by
                rw [Finset.mem_filter]
                exact ⟨Finset.mem_insert_self _ _, hs⟩
              have := hcontr hcode
              rw [Finset.mem_filter, List.mem_cons] at this
              exact this.2 (Or.inl rfl)
          have := Finset.card_lt_card hsub
          omega
        have hch := bdsChildren_isSome map fuel ih ((mget map code).getD [])
          (by
            cases hg : mget map code with
            | none => simp
            | some l =>
              simp only [Option.getD_some]
              exact children_code_mem_propUniv hg)
          cache (code :: stack) hstk
        obtain ⟨q, hq⟩ := Option.isSome_iff_exists.mp hch
        obtain ⟨total, maxDepth, cache1⟩ := q
        rw [hq]
        rfl

/-- C7: `buildDescendantStats` terminates on every propagation map, including
maps whose parent→child creation edges form a cycle (such as A→B→C→A in
`exCycleMap`), returning a finite `{total, maxDepth}` statistic:
the fuel `defaultFuel map` is always sufficient (first conjunct), and a code
re-encountered while it is on the current DFS stack (and not yet memoized)
contributes `{total := 0, maxDepth := 0}` for that branch instead of recursing
further (second conjunct). -/
theorem C7_buildDescendantStats_terminates (map : PropagationMap) (code : String)
    (fuel : Nat) (cache : SMap DescendantStats) (stack : List String)
    (h1 : code ∈ stack) (h2 : mget cache code = none) :
    (bdsFuel (defaultFuel map) map code [] []).isSome ∧
    bdsFuel (fuel + 1) map code cache stack
      = some ({ total := 0, maxDepth := 0 }, cache) := by
  constructor
  · apply bdsFuel_isSome
    have h3 : ((insert code (propUniv map)).filter
        (fun x => ¬ x ∈ ([] : List String))).card
        = (insert code (propUniv map)).card := by
      rw [Finset.filter_true_of_mem]
      intro x _
      simp
    rw [h3]
    unfold defaultFuel
    have := Finset.card_insert_le code (propUniv map)
    omega
  · rw [bdsFuel, h2]
    simp only []
    rw [if_pos h1]

theorem C7_buildDescendantStats_terminates_witness :
    (bdsFuel (defaultFuel exCycleMap) exCycleMap "A" [] []).isSome ∧
    bdsFuel 5 exCycleMap "A" [] ["A"]
      = some ({ total := 0, maxDepth := 0 }, []) :=
  C7_buildDescendantStats_terminates exCycleMap "A" 4 [] ["A"] (by decide) (by decide)

/-! ## C8: zero-denominator guards in `getReferralMetrics` -/

/-- C8: `getReferralMetrics` guards every ratio against a zero denominator:
zero signups in range force `conversionRate = kycRate = 0`; zero users with a
revenue-activity window overlapping the range force
`feePerUser = retention30d = 0`; and an empty time-to-first-tx sample forces
`timeToFirstTxMedianDays = 0`.  No field is ever produced by a division by
zero. -/
theorem C8_zero_denominator_guards (ix : AnalyticsIndex) (code : String) (range : DateRange) :
    ((getReferralMetrics ix code range).1.signups = 0 →
      (getReferralMetrics ix code range).1.conversionRate = 0 ∧
      (getReferralMetrics ix code range).1.kycRate = 0) ∧
    ((getReferralMetrics ix code range).1.usersWithRevenueTx = 0 →
      (getReferralMetrics ix code range).1.feePerUser = 0 ∧
      (getReferralMetrics ix code range).1.retention30d = 0) ∧
    ((userScan ((resolveReferral ix code).1.users.map (fun p => p.2)) range
        (msOfDateKey? range.start) (msOfDateKey? range.stop)).2.2 = [] →
      (getReferralMetrics ix code range).1.timeToFirstTxMedianDays = 0) := by
  refine ⟨?_, ?_, ?_⟩ <;> simp only [getReferralMetrics]
  · intro h
    exact ⟨by rw [if_pos h], by rw [if_pos h]⟩
  · intro h
    exact ⟨by rw [if_pos h], by rw [if_pos h]⟩
  · intro h
    rw [h]
    rfl

theorem C8_zero_denominator_guards_witness :
    (getReferralMetrics exFresh "X" exRange).1.conversionRate = 0 ∧
    (getReferralMetrics exFresh "X" exRange).1.kycRate = 0 ∧
    (getReferralMetrics exFresh "X" exRange).1.feePerUser = 0 ∧
    (getReferralMetrics exFresh "X" exRange).1.retention30d = 0 ∧
    (getReferralMetrics exFresh "X" exRange).1.timeToFirstTxMedianDays = 0 := by
  obtain ⟨h1, h2, h3⟩ := C8_zero_denominator_guards exFresh "X" exRange
  obtain ⟨a, b⟩ := h1 (by decide)
  obtain ⟨c, d⟩ := h2 (by decide)
  exact ⟨a, b, c, d, h3 (by decide)⟩


/-! ## C9: the user scan of `getReferralMetrics`, characterised as counts -/

theorem userScanStep_fst (range : DateRange) (s e : Option Int)
    (acc : Nat × Nat × List ℚ) (u : UserAgg) :
    (userScanStep range s e acc u).1 =
      acc.1 + (if userOverlaps s e u then 1 else 0) := by
  by_cases h1 : (optNumFalsy u.firstRevenueTxAt || optNumFalsy u.lastRevenueTxAt) = true
  · simp [userScanStep, userOverlaps, h1]
  · by_cases h2 : afterRangeEnd e (u.firstRevenueTxAt.getD 0) = true
    · simp [userScanStep, userOverlaps, h1, h2]
    · by_cases h3 : beforeRangeStart s (u.lastRevenueTxAt.getD 0) = true
      · simp [userScanStep, userOverlaps, h1, h2, h3]
      · by_cases h4 : isDateInRange (toDateKey (u.firstRevenueTxAt.getD 0)) range = true
        · simp [userScanStep, userOverlaps, h1, h2, h3, h4]
        · simp [userScanStep, userOverlaps, h1, h2, h3, h4]

theorem userScanStep_retained (range : DateRange) (s e : Option Int)
    (acc : Nat × Nat × List ℚ) (u : UserAgg) :
    (userScanStep range s e acc u).2.1 =
      acc.2.1 + (if userOverlaps s e u
          && isDateInRange (toDateKey (u.firstRevenueTxAt.getD 0)) range
          && u.retainedWithin30d then 1 else 0) := by
  by_cases h1 : (optNumFalsy u.firstRevenueTxAt || optNumFalsy u.lastRevenueTxAt) = true
  · simp [userScanStep, userOverlaps, h1]
  · by_cases h2 : afterRangeEnd e (u.firstRevenueTxAt.getD 0) = true
    · simp [userScanStep, userOverlaps, h1, h2]
    · by_cases h3 : beforeRangeStart s (u.lastRevenueTxAt.getD 0) = true
      · simp [userScanStep, userOverlaps, h1, h2, h3]
      · by_cases h4 : isDateInRange (toDateKey (u.firstRevenueTxAt.getD 0)) range = true
        · by_cases h5 : u.retainedWithin30d = true
          · simp [userScanStep, userOverlaps, h1, h2, h3, h4, h5]
          · simp [userScanStep, userOverlaps, h1, h2, h3, h4, h5]
        · simp [userScanStep, userOverlaps, h1, h2, h3, h4]

theorem userScan_fold_char (range : DateRange) (s e : Option Int) (users : List UserAgg) :
    ∀ acc : Nat × Nat × List ℚ,
      (users.foldl (userScanStep range s e) acc).1 =
        acc.1 + users.countP (userOverlaps s e) ∧
      (users.foldl (userScanStep range s e) acc).2.1 =
        acc.2.1 + users.countP (fun u => userOverlaps s e u
          && isDateInRange (toDateKey (u.firstRevenueTxAt.getD 0)) range
          && u.retainedWithin30d) := by
  induction users with
  | nil => intro acc; simp
  | cons u rest ih =>
    intro acc
    rw [List.foldl_cons]
    obtain ⟨ihl, ihr⟩ := ih (userScanStep range s e acc u)
    constructor
    · rw [ihl, userScanStep_fst, List.countP_cons]
      by_cases h : userOverlaps s e u = true <;> simp [h] <;> omega
    · rw [ihr, userScanStep_retained, List.countP_cons]
      by_cases h : (userOverlaps s e u
          && isDateInRange (toDateKey (u.firstRevenueTxAt.getD 0)) range
          && u.retainedWithin30d) = true <;> simp [h] <;> omega

/-- C9 (corrected): `usersWithRevenueTx` does count the users whose revenue
window overlaps the range, but `retainedUsers` only counts overlap users whose
*first* revenue-transaction date also falls inside the range
(`retainedUsersCode`), not every retained overlap user as the claim states;
`retention30d` divides that stricter count by `usersWithRevenueTx`. -/
theorem C9_user_scan_counts (ix : AnalyticsIndex) (code : String) (range : DateRange) :
    (getReferralMetrics ix code range).1.usersWithRevenueTx =
      ((resolveReferral ix code).1.users.map (fun p => p.2)).countP
        (userOverlaps (msOfDateKey? range.start) (msOfDateKey? range.stop)) ∧
    (getReferralMetrics ix code range).1.retention30d =
      (if ((resolveReferral ix code).1.users.map (fun p => p.2)).countP
            (userOverlaps (msOfDateKey? range.start) (msOfDateKey? range.stop)) = 0 then 0
       else (retainedUsersCode ((resolveReferral ix code).1.users.map (fun p => p.2)) range
              (msOfDateKey? range.start) (msOfDateKey? range.stop) : ℚ) /
            (((resolveReferral ix code).1.users.map (fun p => p.2)).countP
              (userOverlaps (msOfDateKey? range.start) (msOfDateKey? range.stop)) : ℚ)) := by
  obtain ⟨h1, h2⟩ := userScan_fold_char range (msOfDateKey? range.start)
    (msOfDateKey? range.stop) ((resolveReferral ix code).1.users.map (fun p => p.2)) (0, 0, [])
  simp only [getReferralMetrics, userScan, retainedUsersCode]
  rw [h1, h2]
  constructor
  · simp only [Nat.zero_add]
  · simp only [Nat.zero_add]

/-- C9 counterexample: a user retained within 30 days whose window overlaps the
range but whose first transaction predates it.  The claim computes
`retention30d = 1`, the code returns `0`. -/
theorem C9_counterexample :
    retention30dClaim ((resolveReferral exIxRetention "X").1.users.map (fun p => p.2))
        (msOfDateKey? exRange.start) (msOfDateKey? exRange.stop) = 1 ∧
    (getReferralMetrics exIxRetention "X" exRange).1.retention30d = 0 ∧
    (getReferralMetrics exIxRetention "X" exRange).1.retention30d ≠
      retention30dClaim ((resolveReferral exIxRetention "X").1.users.map (fun p => p.2))
        (msOfDateKey? exRange.start) (msOfDateKey? exRange.stop) := by
  refine ⟨by decide, by decide, by decide⟩


/-! ## C10: wallet-to-referral linkage under repeated signups -/

theorem lastWriterLink_create (opts : AnalyticsOptions) :
    lastWriterLink (createAnalyticsIndex opts) := by
  intro w c hget
  simp [createAnalyticsIndex] at hget

theorem lastWriterLink_addCustomer (ix : AnalyticsIndex) (c : Customer)
    (h : lastWriterLink ix) : lastWriterLink (addCustomer ix c) := by
  unfold addCustomer
  rw [getReferral_eq]
  simp only [mset_mset_same]
  intro w c' hget
  by_cases hw : c.smartWallet = w
  · subst hw
    rw [mget_mset_self] at hget
    obtain rfl : c = c' := by simpa using hget
    exact ⟨rfl, _, mget_mset_self _ _ _, mget_mset_self _ _ _, mget_mset_self _ _ _⟩
  · rw [mget_mset_ne _ _ hw] at hget
    obtain ⟨hwc, agg', hagg', hus', hubw'⟩ := h w c' hget
    refine ⟨hwc, ?_⟩
    by_cases ht : trimCode c.referral = trimCode c'.referral
    · rw [← ht] at hagg'
      rw [← ht]
      have hgetd : (mget ix.referrals (trimCode c.referral)).getD
          (createReferralIndex (trimCode c.referral)) = agg' := by
        rw [hagg']
        rfl
      refine ⟨_, mget_mset_self _ _ _, ?_, ?_⟩
      · show mget (mset _ c.smartWallet _) w = some (initialUserAgg c')
        rw [mget_mset_ne _ _ hw, hgetd]
        exact hus'
      · show mget (mset _ c.smartWallet _) w = some (initialUserAgg c')
        rw [mget_mset_ne _ _ hw]
        exact hubw'
    · rw [mget_mset_ne _ _ ht]
      refine ⟨agg', hagg', hus', ?_⟩
      show mget (mset _ c.smartWallet _) w = some (initialUserAgg c')
      rw [mget_mset_ne _ _ hw]
      exact hubw'

theorem lastWriterLink_foldl (cs : List Customer) :
    ∀ ix, lastWriterLink ix → lastWriterLink (cs.foldl addCustomer ix) := by
  induction cs with
  | nil => intro ix h; exact h
  | cons c rest ih => intro ix h; exact ih _ (lastWriterLink_addCustomer _ _ h)

/-- C10 (corrected): `customersByWallet` and `usersByWallet` are last-writer-
wins — the wallet maps to its most recent customer record, and that record's
referral aggregate holds a fresh `UserAgg` for it — but the wallet is *not* a
key of at most one aggregate's users map: the aggregate of an earlier signup
keeps its stale entry (see the counterexample). -/
theorem C10_last_writer_wins (opts : AnalyticsOptions) (cs : List Customer) (w : String)
    (c : Customer)
    (hc : mget (cs.foldl addCustomer (createAnalyticsIndex opts)).customersByWallet w = some c) :
    w = c.smartWallet ∧
    ∃ agg, mget (cs.foldl addCustomer (createAnalyticsIndex opts)).referrals
        (trimCode c.referral) = some agg ∧
      mget agg.users w = some (initialUserAgg c) ∧
      mget (cs.foldl addCustomer (createAnalyticsIndex opts)).usersByWallet w
        = some (initialUserAgg c) :=
  lastWriterLink_foldl cs _ (lastWriterLink_create opts) w c hc

theorem C10_last_writer_wins_witness :
    "0xabc" = exCustomerB.smartWallet ∧
    ∃ agg, mget ([exCustomerA, exCustomerB].foldl addCustomer
        (createAnalyticsIndex exOptions)).referrals (trimCode exCustomerB.referral) = some agg ∧
      mget agg.users "0xabc" = some (initialUserAgg exCustomerB) ∧
      mget ([exCustomerA, exCustomerB].foldl addCustomer
        (createAnalyticsIndex exOptions)).usersByWallet "0xabc"
        = some (initialUserAgg exCustomerB) :=
  C10_last_writer_wins exOptions [exCustomerA, exCustomerB] "0xabc" exCustomerB (by decide)

/-- C10 counterexample: the same wallet signed up under "A" and then under "B"
is a key of *both* aggregates' users maps — the claim says at most one. -/
theorem C10_counterexample :
    (mget exIxDup.referrals "A").map (fun agg => mhas agg.users "0xabc") = some true ∧
    (mget exIxDup.referrals "B").map (fun agg => mhas agg.users "0xabc") = some true ∧
    mget exIxDup.customersByWallet "0xabc" = some exCustomerB := by
  refine ⟨by decide, by decide, by decide⟩


/-! ## C6: the bounded revenue-transaction sample of `maybeStoreTx` -/

theorem txLe_total (a b : RevenueTxLite) : txLe a b = true ∨ txLe b a = true := by
  simp only [txLe, decide_eq_true_eq]
  omega

theorem txLe_trans_fact (a b c : RevenueTxLite) (h1 : txLe a b = true) (h2 : txLe b c = true) :
    txLe a c = true := by
  simp only [txLe, decide_eq_true_eq] at h1 h2 ⊢
  omega

theorem sortBy_txLe_perm (l : List RevenueTxLite) : (sortBy txLe l).Perm l :=
  List.perm_insertionSort _ l

theorem sortBy_txLe_pairwise (l : List RevenueTxLite) :
    List.Pairwise (fun a b => txLe a b = true) (sortBy txLe l) := by
  haveI : IsTotal RevenueTxLite (fun a b => txLe a b = true) := ⟨txLe_total⟩
  haveI : IsTrans RevenueTxLite (fun a b => txLe a b = true) :=
    ⟨fun a b c h1 h2 => txLe_trans_fact a b c h1 h2⟩
  exact List.sorted_insertionSort _ l

theorem maybeStoreTx_inv (opts : AnalyticsOptions) (hk : opts.keepFullTx = false)
    (proc stored : List RevenueTxLite) (tx : RevenueTxLite)
    (h : storedSampleInv opts.maxStoredTxs proc stored) :
    storedSampleInv opts.maxStoredTxs (proc ++ [tx]) (maybeStoreTx opts stored tx) := by
  obtain ⟨hlen, disc, hperm, hprop⟩ := h
  have hple : proc.length = stored.length + disc.length := by
    rw [hperm.length_eq, List.length_append]
  simp only [maybeStoreTx, hk, Bool.false_eq_true, if_false]
  by_cases hov : (stored ++ [tx]).length > opts.maxStoredTxs
  · rw [if_pos hov]
    rw [List.length_append, List.length_singleton] at hov
    have hstN : stored.length = opts.maxStoredTxs := by omega
    have hps : (sortBy txLe (stored ++ [tx])).Perm (stored ++ [tx]) := sortBy_txLe_perm _
    have hsl : (sortBy txLe (stored ++ [tx])).length = stored.length + 1 := by
      rw [hps.length_eq, List.length_append, List.length_singleton]
    have hdl : ((sortBy txLe (stored ++ [tx])).drop opts.maxStoredTxs).length = 1 := by
      rw [List.length_drop]
      omega
    obtain ⟨x, hx⟩ := List.length_eq_one.mp hdl
    have hsx : sortBy txLe (stored ++ [tx]) =
        (sortBy txLe (stored ++ [tx])).take opts.maxStoredTxs ++ [x] := by
      rw [← hx, List.take_append_drop]
    have hpw : List.Pairwise (fun a b => txLe a b = true)
        ((sortBy txLe (stored ++ [tx])).take opts.maxStoredTxs ++ [x]) := by
      rw [← hsx]
      exact sortBy_txLe_pairwise _
    obtain ⟨-, -, hcross⟩ := List.pairwise_append.mp hpw
    refine ⟨?_, x :: disc, ?_, ?_⟩
    · rw [List.length_take, List.length_append, List.length_singleton, hsl]
      omega
    · have h1 : (sortBy txLe (stored ++ [tx])).take opts.maxStoredTxs ++ (x :: disc) =
          ((sortBy txLe (stored ++ [tx])).take opts.maxStoredTxs ++ [x]) ++ disc := by
        simp
      rw [h1, ← hsx]
      refine (hperm.append_right [tx]).trans ?_
      have p2 : ((stored ++ disc) ++ [tx]).Perm ((stored ++ [tx]) ++ disc) := by
        rw [List.append_assoc stored disc [tx], List.append_assoc stored [tx] disc]
        exact List.Perm.append_left stored List.perm_append_comm
      exact p2.trans (hps.symm.append_right disc)
    · intro s hs d hd
      rcases List.mem_cons.mp hd with rfl | hd2
      · have := hcross s hs d (List.mem_singleton_self d)
        simp only [txLe, decide_eq_true_eq] at this
        exact this
      · by_cases hsst : s ∈ stored
        · exact hprop s hsst d hd2
        · have hs_pushed : s ∈ stored ++ [tx] := by
            refine hps.mem_iff.mp ?_
            rw [hsx]
            exact List.mem_append_left _ hs
          have hstx : s = tx := by
            rcases List.mem_append.mp hs_pushed with h' | h'
            · exact absurd h' hsst
            · simpa using h'
          have hxc : x ∈ stored := by
            by_contra hxn
            have hx_mem : x ∈ stored ++ [tx] := by
              refine hps.mem_iff.mp ?_
              rw [hsx]
              exact List.mem_append_right _ (List.mem_singleton_self x)
            have hxeq : x = s := by
              rcases List.mem_append.mp hx_mem with h' | h'
              · exact absurd h' hxn
              · rw [hstx]
                simpa using h'
            have hcnt := hps.count_eq s
            rw [hsx, List.count_append, List.count_append] at hcnt
            have hc1 : List.count s [tx] = 1 := by
              rw [hstx]
              simp
            have hc2 : List.count s stored = 0 := List.count_eq_zero.mpr hsst
            have hc3 : 0 < List.count s ((sortBy txLe (stored ++ [tx])).take
                opts.maxStoredTxs) := List.count_pos_iff.mpr hs
            have hc4 : List.count s [x] = 1 := by
              rw [hxeq]
              simp
            omega
          have hdx : d.createdAt ≤ x.createdAt := hprop x hxc d hd2
          have hxs := hcross s hs x (List.mem_singleton_self x)
          simp only [txLe, decide_eq_true_eq] at hxs
          omega
  · rw [if_neg hov]
    rw [List.length_append, List.length_singleton] at hov
    have hd0 : disc.length = 0 := by omega
    have hdnil : disc = [] := List.eq_nil_of_length_eq_zero hd0
    subst hdnil
    refine ⟨?_, [], ?_, ?_⟩
    · rw [List.length_append, List.length_singleton, List.length_append,
        List.length_singleton]
      omega
    · rw [List.append_nil]
      rw [List.append_nil] at hperm
      exact hperm.append_right [tx]
    · intro s hs d hd
      simp at hd

theorem maybeStoreTx_foldl_inv (opts : AnalyticsOptions) (hk : opts.keepFullTx = false)
    (txs : List RevenueTxLite) :
    ∀ proc stored, storedSampleInv opts.maxStoredTxs proc stored →
      storedSampleInv opts.maxStoredTxs (proc ++ txs) (txs.foldl (maybeStoreTx opts) stored) := by
  induction txs with
  | nil => intro proc stored h; simpa using h
  | cons t rest ih =>
    intro proc stored h
    have h2 := ih (proc ++ [t]) _ (maybeStoreTx_inv opts hk proc stored t h)
    rw [List.append_assoc, List.singleton_append] at h2
    exact h2

theorem maybeStoreTx_foldl_nil (opts : AnalyticsOptions) (hk : opts.keepFullTx = false)
    (txs : List RevenueTxLite) :
    storedSampleInv opts.maxStoredTxs txs (txs.foldl (maybeStoreTx opts) []) := by
  have h0 : storedSampleInv opts.maxStoredTxs [] [] := by
    refine ⟨by simp, [], by simp, ?_⟩
    intro s hs d hd
    simp at hs
  simpa using maybeStoreTx_foldl_inv opts hk txs [] [] h0


theorem addRevenueTransaction_attributed_step (ix : AnalyticsIndex) (c : Customer)
    (tx : ParsedRevenueTx) (agg : ReferralIndex) (hwt : tx.wallet = c.smartWallet)
    (hc : mget ix.customersByWallet c.smartWallet = some c)
    (hagg : mget ix.referrals (trimCode c.referral) = some agg)
    (hu : (mget agg.users c.smartWallet).isSome) :
    ∃ agg', mget (addRevenueTransaction ix tx).referrals (trimCode c.referral) = some agg' ∧
      (mget agg'.users c.smartWallet).isSome ∧
      agg'.topRevenueTxs = maybeStoreTx ix.options agg.topRevenueTxs (txLiteOf c tx) ∧
      (addRevenueTransaction ix tx).options = ix.options ∧
      mget (addRevenueTransaction ix tx).customersByWallet c.smartWallet = some c := by
  obtain ⟨u0, hu0⟩ := Option.isSome_iff_exists.mp hu
  have hc' : mget ix.customersByWallet tx.wallet = some c := by
    rw [hwt]
    exact hc
  have hu0' : mget agg.users tx.wallet = some u0 := by
    rw [hwt]
    exact hu0
  simp only [addRevenueTransaction, hc', getReferral_eq, hagg, Option.getD_some, hu0',
    Option.orElse, mset_mset_same]
  refine ⟨_, mget_mset_self _ _ _, ?_, ?_, trivial, hc⟩
  · show (mget ({ applyTxAgg agg tx _ _ _ tx.wallet _ with
      topRevenueTxs := _ } : ReferralIndex).users c.smartWallet).isSome
    rw [show ({ applyTxAgg agg tx _ _ _ tx.wallet _ with
      topRevenueTxs := _ } : ReferralIndex).users
      = (applyTxAgg agg tx _ _ _ tx.wallet _).users from rfl, applyTxAgg_users,
      mget_updatePresent_isSome]
    exact hu
  · show ({ applyTxAgg agg tx _ _ _ tx.wallet _ with
      topRevenueTxs := maybeStoreTx ix.options
        (applyTxAgg agg tx _ _ _ tx.wallet _).topRevenueTxs (txLiteOf c tx) } :
        ReferralIndex).topRevenueTxs
      = maybeStoreTx ix.options agg.topRevenueTxs (txLiteOf c tx)
    rw [show ({ applyTxAgg agg tx _ _ _ tx.wallet _ with
      topRevenueTxs := maybeStoreTx ix.options
        (applyTxAgg agg tx _ _ _ tx.wallet _).topRevenueTxs (txLiteOf c tx) } :
        ReferralIndex).topRevenueTxs
      = maybeStoreTx ix.options (applyTxAgg agg tx _ _ _ tx.wallet _).topRevenueTxs
        (txLiteOf c tx) from rfl, applyTxAgg_topRevenueTxs]

theorem singleCustomer_fold (opts : AnalyticsOptions) (c : Customer) :
    ∀ (txs : List ParsedRevenueTx), (∀ tx ∈ txs, tx.wallet = c.smartWallet) →
    ∀ (ix : AnalyticsIndex) (agg : ReferralIndex), ix.options = opts →
      mget ix.customersByWallet c.smartWallet = some c →
      mget ix.referrals (trimCode c.referral) = some agg →
      (mget agg.users c.smartWallet).isSome →
      ∃ agg', mget (txs.foldl addRevenueTransaction ix).referrals (trimCode c.referral)
          = some agg' ∧
        (mget agg'.users c.smartWallet).isSome ∧
        agg'.topRevenueTxs
          = (txs.map (txLiteOf c)).foldl (maybeStoreTx opts) agg.topRevenueTxs := by
  intro txs
  induction txs with
  | nil =>
    intro _ ix agg _ _ hagg hu
    exact ⟨agg, hagg, hu, rfl⟩
  | cons t rest ih =>
    intro hw ix agg hopt hc hagg hu
    obtain ⟨agg2, hga2, hu2, htop2, hopt2, hc2⟩ :=
      addRevenueTransaction_attributed_step ix c t agg (hw t (List.mem_cons_self t rest))
        hc hagg hu
    obtain ⟨agg', hga', hu', htop'⟩ := ih (fun tx htx => hw tx (List.mem_cons_of_mem t htx))
      (addRevenueTransaction ix t) agg2 (hopt2.trans hopt) hc2 hga2 hu2
    refine ⟨agg', hga', hu', ?_⟩
    rw [htop', htop2, hopt, List.map_cons, List.foldl_cons]

/-- C6 (confirmed): with `keepFullTx = false`, after ingesting any sequence of
attributed transactions of one signed-up customer, the owning referral's
`topRevenueTxs` sample holds exactly `min #txs maxStoredTxs` entries, and every
entry the policy discarded has `createdAt` no newer than every retained entry:
the sample is the `maxStoredTxs` most recent transactions. -/
theorem C6_sample_retention (opts : AnalyticsOptions) (c : Customer)
    (txs : List ParsedRevenueTx) (hk : opts.keepFullTx = false)
    (hw : ∀ tx ∈ txs, tx.wallet = c.smartWallet) :
    ∃ agg, mget (txs.foldl addRevenueTransaction
        (addCustomer (createAnalyticsIndex opts) c)).referrals (trimCode c.referral)
        = some agg ∧
      agg.topRevenueTxs.length = min txs.length opts.maxStoredTxs ∧
      ∃ disc, (txs.map (txLiteOf c)).Perm (agg.topRevenueTxs ++ disc) ∧
        ∀ s ∈ agg.topRevenueTxs, ∀ d ∈ disc, d.createdAt ≤ s.createdAt := by
  have hc0 : mget (addCustomer (createAnalyticsIndex opts) c).customersByWallet c.smartWallet
      = some c := by
    unfold addCustomer
    rw [getReferral_eq]
    exact mget_mset_self _ _ _
  have hagg0 : ∃ agg0, mget (addCustomer (createAnalyticsIndex opts) c).referrals
      (trimCode c.referral) = some agg0 ∧
      (mget agg0.users c.smartWallet).isSome ∧ agg0.topRevenueTxs = [] := by
    unfold addCustomer
    rw [getReferral_eq]
    refine ⟨_, mget_mset_self _ _ _, ?_, rfl⟩
    rw [show ({ (mget (createAnalyticsIndex opts).referrals (trimCode c.referral)).getD
        (createReferralIndex (trimCode c.referral)) with
          users := mset ((mget (createAnalyticsIndex opts).referrals
            (trimCode c.referral)).getD
            (createReferralIndex (trimCode c.referral))).users c.smartWallet
            (initialUserAgg c)
          signupsByDate := _
          kycByDate := _ } : ReferralIndex).users
      = mset ((mget (createAnalyticsIndex opts).referrals (trimCode c.referral)).getD
        (createReferralIndex (trimCode c.referral))).users c.smartWallet (initialUserAgg c)
      from rfl, mget_mset_self]
    rfl
  obtain ⟨agg0, hga0, hu0, htop0⟩ := hagg0
  obtain ⟨agg', hga', hu', htop'⟩ := singleCustomer_fold opts c txs hw
    (addCustomer (createAnalyticsIndex opts) c) agg0 rfl hc0 hga0 hu0
  rw [htop0] at htop'
  obtain ⟨hlen, disc, hperm, hprop⟩ := maybeStoreTx_foldl_nil opts hk (txs.map (txLiteOf c))
  rw [← htop'] at hlen hperm hprop
  refine ⟨agg', hga', ?_, disc, hperm, hprop⟩
  rw [hlen, List.length_map]


theorem C6_sample_retention_witness :
    ∃ agg, mget ([exTx1, exTx2, exTx3].foldl addRevenueTransaction
        (addCustomer (createAnalyticsIndex exOptsSmall) exCustomerX)).referrals
        (trimCode exCustomerX.referral) = some agg ∧
      agg.topRevenueTxs.length = min ([exTx1, exTx2, exTx3] : List ParsedRevenueTx).length
        exOptsSmall.maxStoredTxs ∧
      ∃ disc, ([exTx1, exTx2, exTx3].map (txLiteOf exCustomerX)).Perm
          (agg.topRevenueTxs ++ disc) ∧
        ∀ s ∈ agg.topRevenueTxs, ∀ d ∈ disc, d.createdAt ≤ s.createdAt :=
  C6_sample_retention exOptsSmall exCustomerX [exTx1, exTx2, exTx3] (by decide) (by decide)


end ReferralDashboard
